import Mathlib

/-!
Verification of the scheduling-webapp constraint core.

Shallow embedding of the CP-SAT scheduling pipeline:
  - testcase_gui.py            (namespace TG)    : build_model / solve_two_phase /
                                                   AssignmentPoolCollector / _select_diverse_k
  - scheduler_sat_core.py      (namespace SatCore): infer_allowed_types and the
                                                   eligibility rule of build_model
  - public/local-solver-package/scheduler_sat_core.py (namespace LocalCore):
                                                   the hard-forbidden-day constraints

A CP-SAT model is embedded as a predicate over explicit valuations of its
integer variables (Python ints are unbounded, so values are plain Int);
the external solver engine is a black box that returns some valuation
satisfying the model's constraints.  Dict-shaped case data is embedded as
structures whose fields keep the JSON key names.
-/

namespace SchedulingWebapp

/-! ## Calendar arithmetic (models Python datetime.date / datetime.datetime)

Python's date type is the proleptic Gregorian calendar; days_from_civil is the
standard civil-from-date day count (1970-01-01 equals day 0), and
date.weekday() is Monday=0 .. Sunday=6. -/

def daysFromCivil (y m d : Int) : Int :=
  let y2 : Int := if m ≤ 2 then y - 1 else y
  let era : Int := (if 0 ≤ y2 then y2 else y2 - 399) / 400
  let yoe : Int := y2 - era * 400
  let mp : Int := (m + 9) % 12
  let doy : Int := (153 * mp + 2) / 5 + d - 1
  let doe : Int := yoe * 365 + yoe / 4 - yoe / 100 + doy
  era * 146097 + doe - 719468

/-- Python date.weekday(): Monday = 0 .. Sunday = 6 (1970-01-01 was a Thursday). -/
def weekdayYMD (y m d : Int) : Int :=
  (daysFromCivil y m d + 3) % 7

/-- Python str.split with a one-character separator, on the character list. -/
def splitOnChar (sep : Char) : List Char → List (List Char)
  | [] => [[]]
  | c :: t =>
      let r := splitOnChar sep t
      if c = sep then [] :: r else (c :: r.headD []) :: r.tail

/-- Python str.split(sep) for the one-character separators this code uses. -/
def splitOnCharStr (sep : Char) (s : String) : List String :=
  (splitOnChar sep s.data).map (fun l => String.mk l)

/-- Python int(s) restricted to plain digit strings (every numeric field this
code feeds it is one); none where int() raises ValueError. -/
def strToNat? (s : String) : Option Nat :=
  if s.data.isEmpty then none
  else s.data.foldl (fun acc c =>
    match acc with
    | none => none
    | some n =>
        if 48 ≤ c.toNat ∧ c.toNat ≤ 57 then some (n * 10 + (c.toNat - 48)) else none)
    (some 0)

/-- Python's sep in s test for one-character needles. -/
def containsChar (ch : Char) (s : String) : Bool :=
  s.data.any (fun c => c = ch)

/-- Parse an ISO "YYYY-MM-DD" date string; models int() over split('-') plus the
range checks datetime.date performs (day-in-month checking is coarsened to 31,
which agrees with the stdlib on every date string appearing in this file). -/
def parseISODate (s : String) : Option (Int × Int × Int) :=
  match (splitOnCharStr '-' s).map strToNat? with
  | [some y, some m, some d] =>
      if 1 ≤ m ∧ m ≤ 12 ∧ 1 ≤ d ∧ d ≤ 31 then some ((y : Int), (m : Int), (d : Int))
      else none
  | _ => none

def weekdayNames : List String :=
  ["Monday", "Tuesday", "Wednesday", "Thursday", "Friday", "Saturday", "Sunday"]

/-- Weekday name of an ISO date (strftime with the %A format), none if the
date does not parse (Python raises ValueError there). -/
def dayNameOpt (s : String) : Option String :=
  (parseISODate s).map (fun t => weekdayNames.getD (weekdayYMD t.1 t.2.1 t.2.2).toNat "")

/-- Parse "HH:MM" or "HH:MM:SS" to seconds, as datetime.time does. -/
def parseTimeHMS (s : String) : Option Int :=
  match (splitOnCharStr ':' s).map strToNat? with
  | [some h, some mi] =>
      if h < 24 ∧ mi < 60 then some ((3600 * h + 60 * mi : Nat) : Int) else none
  | [some h, some mi, some sec] =>
      if h < 24 ∧ mi < 60 ∧ sec < 60 then
        some ((3600 * h + 60 * mi + sec : Nat) : Int) else none
  | _ => none

/-- datetime.datetime.fromisoformat, reduced to the shapes this repository
feeds it ("YYYY-MM-DD" or "YYYY-MM-DDTHH:MM[:SS]"): the absolute timestamp in
seconds, or none where the stdlib raises ValueError. -/
def fromisoformat (s : String) : Option Int :=
  match splitOnCharStr 'T' s with
  | [ds] => (parseISODate ds).map (fun t => 86400 * daysFromCivil t.1 t.2.1 t.2.2)
  | [ds, ts] => do
      let t ← parseISODate ds
      let tm ← parseTimeHMS ts
      some (86400 * daysFromCivil t.1 t.2.1 t.2.2 + tm)
  | _ => none

/-- The timezone strip applied before parsing in the 12-hour-rest loop:
s.replace('Z', '').split('+')[0], i.e. drop every 'Z' and keep what precedes
the first '+'. -/
def stripTZ (s : String) : String :=
  String.mk ((s.data.filter (fun c => c != 'Z')).takeWhile (fun c => c != '+'))

/-! ## Shared case data model

The JSON case object consumed by every solver module.  Field names keep the
JSON keys; the shift field "end" is a Lean keyword and is embedded as endT. -/

structure Shift where
  id : String
  date : String
  type : String
  start : String
  endT : String
  allowed_provider_types : List String

/-- Per-provider limits dict; absent keys are none (build_model applies
lim.get defaults at use sites). -/
structure Limits where
  min_total : Option Int
  max_total : Option Int

structure Provider where
  name : String
  type : String
  forbidden_days_hard : List String
  forbidden_days_soft : List String
  preferred_days_hard : List (String × List String)
  preferred_days_soft : List (String × List String)
  max_consecutive_days : Int
  limits : Limits

structure Calendar where
  days : List String
  weekend_days : List String

structure Case where
  calendar : Calendar
  shifts : List Shift
  providers : List Provider

def defaultShift : Shift :=
  { id := "", date := "", type := "", start := "", endT := "",
    allowed_provider_types := [] }

def defaultProvider : Provider :=
  { name := "", type := "", forbidden_days_hard := [], forbidden_days_soft := [],
    preferred_days_hard := [], preferred_days_soft := [],
    max_consecutive_days := 0, limits := { min_total := none, max_total := none } }

/-- Sum of f over 0..n-1 (models Python sum over a range of indices). -/
def sumIdx (n : Nat) (f : Nat → Int) : Int :=
  ((List.range n).map f).sum

/-- Sum of f over an explicit index list (models Python sum over a filtered
comprehension; the empty-list special cases in the source also produce 0). -/
def sumOver (l : List Nat) (f : Nat → Int) : Int :=
  (l.map f).sum

/-! ## scheduler_sat_core.py (repository root): eligibility inference -/

namespace SatCore

/-- infer_allowed_types (scheduler_sat_core.py lines 76-86): an explicit
non-empty allowed_provider_types wins; otherwise, if the shift type has an
underscore and its first '_'-component names a known provider type, only that
type is allowed; otherwise every provider type is allowed.  A missing key and
an empty list are both falsy in Python, so both are embedded as []. -/
def infer_allowed_types (allowed : List String) (stype : String)
    (provider_types : List String) : List String :=
  if allowed ≠ [] then allowed
  else if containsChar '_' stype ∧ (splitOnCharStr '_' stype).headD "" ∈ provider_types then
    [(splitOnCharStr '_' stype).headD ""]
  else provider_types

/-- The set {p.get('type', 'MD') for p in providers} built in build_model
(line 115); only membership in it is ever used. -/
def providerTypes (providers : List Provider) : List String :=
  (providers.map (fun p => p.type)).dedup

/-- build_model lines 142-156: the assignment variable x[(p, s)] is a real
boolean decision variable exactly when the provider type is in the inferred
allowed set; otherwise it is a variable fixed to 0. -/
def eligible (providers : List Provider) (p : Provider) (s : Shift) : Prop :=
  p.type ∈ infer_allowed_types s.allowed_provider_types s.type (providerTypes providers)

instance (providers : List Provider) (p : Provider) (s : Shift) :
    Decidable (eligible providers p s) := by
  unfold eligible; infer_instance

end SatCore

/-- With an empty allowed list the first branch of infer_allowed_types is
skipped and the inference rule applies. -/
theorem infer_allowed_types_nil (stype : String) (pts : List String) :
    SatCore.infer_allowed_types [] stype pts =
      if containsChar '_' stype ∧ (splitOnCharStr '_' stype).headD "" ∈ pts then
        [(splitOnCharStr '_' stype).headD ""]
      else pts := by
  unfold SatCore.infer_allowed_types
  simp

/-- Every listed provider's type is a member of providerTypes. -/
theorem mem_providerTypes {providers : List Provider} {p : Provider}
    (hp : p ∈ providers) : p.type ∈ SatCore.providerTypes providers :=
  List.mem_dedup.mpr (List.mem_map_of_mem (fun q => q.type) hp)

/-- C10: for every shift whose allowed_provider_types field is missing or
empty, eligibility is inferred: if the shift type has an underscore whose
first component names a known provider type, exactly the providers of that
type are eligible; otherwise every provider is eligible.  Either way a shift
with an empty allowed list is never structurally unassignable when at least
one provider exists. -/
theorem satcore_infer_allowed_eligibility
    (providers : List Provider) (s : Shift)
    (hempty : s.allowed_provider_types = []) :
    (((containsChar '_' s.type ∧
        (splitOnCharStr '_' s.type).headD "" ∈ SatCore.providerTypes providers) →
      ∀ p ∈ providers,
        (SatCore.eligible providers p s ↔ p.type = (splitOnCharStr '_' s.type).headD "")) ∧
     (¬ (containsChar '_' s.type ∧
        (splitOnCharStr '_' s.type).headD "" ∈ SatCore.providerTypes providers) →
      ∀ p ∈ providers, SatCore.eligible providers p s)) ∧
    (providers ≠ [] → ∃ p ∈ providers, SatCore.eligible providers p s) := by
  have hunf : ∀ p : Provider, SatCore.eligible providers p s ↔
      p.type ∈ (if containsChar '_' s.type ∧
          (splitOnCharStr '_' s.type).headD "" ∈ SatCore.providerTypes providers then
        [(splitOnCharStr '_' s.type).headD ""]
      else SatCore.providerTypes providers) := by
    intro p
    unfold SatCore.eligible
    rw [hempty, infer_allowed_types_nil]
  constructor
  · constructor
    · intro hcase p _hp
      rw [hunf p, if_pos hcase]
      simp
    · intro hcase p hp
      rw [hunf p, if_neg hcase]
      exact mem_providerTypes hp
  · intro hne
    by_cases hcase : containsChar '_' s.type ∧
        (splitOnCharStr '_' s.type).headD "" ∈ SatCore.providerTypes providers
    · obtain ⟨p, hp, hpt⟩ := List.mem_map.mp (List.mem_dedup.mp hcase.2)
      refine ⟨p, hp, ?_⟩
      rw [hunf p, if_pos hcase]
      simp [hpt]
    · obtain ⟨p, hp⟩ := List.exists_mem_of_ne_nil providers hne
      refine ⟨p, hp, ?_⟩
      rw [hunf p, if_neg hcase]
      exact mem_providerTypes hp

def c10Providers : List Provider :=
  [{ defaultProvider with name := "Alice", type := "MD" },
   { defaultProvider with name := "Bob", type := "RN" }]

def c10Shift : Shift :=
  { defaultShift with id := "S1", date := "2024-01-06", type := "MD_day" }

/-- Witness for C10 at a concrete instance: a shift of type "MD_day" with an
empty allowed list infers the allowed type "MD", so exactly the MD provider
is eligible and the shift is assignable. -/
theorem satcore_infer_allowed_eligibility_witness :
    c10Shift.allowed_provider_types = [] ∧
    ((((containsChar '_' c10Shift.type ∧
        (splitOnCharStr '_' c10Shift.type).headD "" ∈ SatCore.providerTypes c10Providers) →
      ∀ p ∈ c10Providers,
        (SatCore.eligible c10Providers p c10Shift ↔
          p.type = (splitOnCharStr '_' c10Shift.type).headD "")) ∧
     (¬ (containsChar '_' c10Shift.type ∧
        (splitOnCharStr '_' c10Shift.type).headD "" ∈ SatCore.providerTypes c10Providers) →
      ∀ p ∈ c10Providers, SatCore.eligible c10Providers p c10Shift)) ∧
    (c10Providers ≠ [] →
      ∃ p ∈ c10Providers, SatCore.eligible c10Providers p c10Shift)) :=
  ⟨rfl, satcore_infer_allowed_eligibility c10Providers c10Shift rfl⟩

/-! ## testcase_gui.py: diversity selector, time budgets, pool collector -/

namespace TG

/-- _hamming (testcase_gui.py lines 1573-1574): positions where the two
vectors differ, over the zipped common length. -/
def hamming (a b : List Int) : Nat :=
  (List.zip a b).countP (fun p => p.1 ≠ p.2)

theorem hamming_comm (a b : List Int) : hamming a b = hamming b a := by
  induction a generalizing b with
  | nil => cases b <;> rfl
  | cons x xs ih =>
      cases b with
      | nil => rfl
      | cons y ys =>
          show (List.zip (x :: xs) (y :: ys)).countP (fun p => decide (p.1 ≠ p.2)) =
            (List.zip (y :: ys) (x :: xs)).countP (fun p => decide (p.1 ≠ p.2))
          rw [List.zip_cons_cons, List.zip_cons_cons,
            List.countP_cons, List.countP_cons]
          have hxy : (decide ((x, y).1 ≠ (x, y).2)) = (decide ((y, x).1 ≠ (y, x).2)) := by
            by_cases h : x = y
            · subst h; simp
            · simp [h, Ne.symm h]
          have ih2 : (xs.zip ys).countP (fun p => decide (p.1 ≠ p.2)) =
              (ys.zip xs).countP (fun p => decide (p.1 ≠ p.2)) := ih ys
          rw [hxy, ih2]

/-- One scan through the sorted index list (the inner for-loop of
_select_diverse_k, testcase_gui.py lines 1587-1592): take every candidate
whose Hamming distance to all currently selected ones is at least thr,
returning as soon as the selection reaches K (the returned flag records that
early return).  Note the scan neither removes selected indices from the list
nor restarts after a pick. -/
def passScan (vecs : List (List Int)) (K thr : Nat) :
    List Nat → List Nat → List Nat × Bool
  | [], sel => (sel, false)
  | k :: rest, sel =>
      if sel.all (fun j => thr ≤ hamming (vecs.getD k []) (vecs.getD j [])) then
        let sel2 := sel ++ [k]
        if sel2.length = K then (sel2, true) else passScan vecs K thr rest sel2
      else passScan vecs K thr rest sel

/-- The while-loop of _select_diverse_k (lines 1586-1596): scan, then either
stop with K solutions, or lower the threshold towards relaxTo and rescan.
Besides the selection we also record the final threshold value, which the
source discards.  At threshold 0 the relaxation guard thr greater than
relaxTo is false for every relaxTo, so both source branches return; the
recursion is therefore structural in thr. -/
def selLoop (vecs : List (List Int)) (idxs : List Nat) (K relaxTo : Nat) :
    Nat → List Nat → List Nat × Nat
  | 0, sel => ((passScan vecs K 0 idxs sel).1, 0)
  | thr + 1, sel =>
      match passScan vecs K (thr + 1) idxs sel with
      | (sel2, true) => (sel2, thr + 1)
      | (sel2, false) =>
          if relaxTo < thr + 1 then selLoop vecs idxs K relaxTo thr sel2
          else (sel2, thr + 1)

/-- _select_diverse_k (testcase_gui.py lines 1576-1596) together with the
final value of its threshold variable: indices are sorted ascending by
objective (sense='min'; Python's stable list sort embedded as insertion
sort), then greedily selected. -/
def select_diverse_k_full (objs : List Int) (vecs : List (List Int))
    (K L relaxTo : Nat) : List Nat × Nat :=
  let idxs := (List.range objs.length).insertionSort
    (fun a b => objs.getD a 0 ≤ objs.getD b 0)
  selLoop vecs idxs K relaxTo L []

/-- _select_diverse_k as the source returns it (selection only; the achieved
threshold is dropped). -/
def select_diverse_k (objs : List Int) (vecs : List (List Int))
    (K L relaxTo : Nat) : List Nat :=
  (select_diverse_k_full objs vecs K L relaxTo).1

/-- The solver metadata assembled in solve_two_phase (lines 1657-1667),
restricted to the fields the claims mention: the selected count and the
reported diversity value, which the source sets to the requested L
(meta2 key "L", line 1666). -/
structure Meta2 where
  solutions_selected : Nat
  L : Nat

def solveTwoPhaseMeta (objs : List Int) (vecs : List (List Int))
    (K L : Nat) : Meta2 :=
  { solutions_selected := (select_diverse_k objs vecs K L 0).length
    L := L }

theorem passScan_length (vecs : List (List Int)) (K thr : Nat) :
    ∀ rest sel sel2 fl, sel.length < K →
      passScan vecs K thr rest sel = (sel2, fl) →
      (fl = true → sel2.length = K) ∧ (fl = false → sel2.length < K) := by
  intro rest
  induction rest with
  | nil =>
      intro sel sel2 fl h heq
      injection heq with e1 e2
      subst e1; subst e2
      exact ⟨(fun hc => nomatch hc), fun _ => h⟩
  | cons k tl ih =>
      intro sel sel2 fl h heq
      unfold passScan at heq
      by_cases hall :
          sel.all (fun j => thr ≤ hamming (vecs.getD k []) (vecs.getD j [])) = true
      · rw [if_pos hall] at heq
        by_cases hK : (sel ++ [k]).length = K
        · rw [if_pos hK] at heq
          injection heq with e1 e2
          subst e1
          exact ⟨fun _ => hK, fun hc => nomatch e2.trans hc⟩
        · rw [if_neg hK] at heq
          have hlt : (sel ++ [k]).length < K := by
            simp only [List.length_append, List.length_cons, List.length_nil] at hK ⊢
            omega
          exact ih (sel ++ [k]) sel2 fl hlt heq
      · rw [if_neg hall] at heq
        exact ih sel sel2 fl h heq

theorem selLoop_step_true (vecs : List (List Int)) (idxs : List Nat)
    (K relaxTo t : Nat) (sel s2 : List Nat)
    (hps : passScan vecs K (t + 1) idxs sel = (s2, true)) :
    selLoop vecs idxs K relaxTo (t + 1) sel = (s2, t + 1) := by
  simp only [selLoop]; rw [hps]

theorem selLoop_step_false (vecs : List (List Int)) (idxs : List Nat)
    (K relaxTo t : Nat) (sel s2 : List Nat)
    (hps : passScan vecs K (t + 1) idxs sel = (s2, false)) :
    selLoop vecs idxs K relaxTo (t + 1) sel =
      (if relaxTo < t + 1 then selLoop vecs idxs K relaxTo t s2
       else (s2, t + 1)) := by
  conv_lhs => rw [selLoop]
  rw [hps]

theorem selLoop_length (vecs : List (List Int)) (idxs : List Nat)
    (K relaxTo : Nat) :
    ∀ thr sel, sel.length < K →
      (selLoop vecs idxs K relaxTo thr sel).1.length ≤ K := by
  intro thr
  induction thr with
  | zero =>
      intro sel h
      rcases hps : passScan vecs K 0 idxs sel with ⟨s2, fl⟩
      have hl := passScan_length vecs K 0 idxs sel s2 fl h hps
      have : selLoop vecs idxs K relaxTo 0 sel = ((s2, fl).1, 0) := by
        unfold selLoop; rw [hps]
      rw [this]
      cases fl with
      | true => have := hl.1 rfl; simp only; omega
      | false => have := hl.2 rfl; simp only; omega
  | succ t ih =>
      intro sel h
      rcases hps : passScan vecs K (t + 1) idxs sel with ⟨s2, fl⟩
      have hl := passScan_length vecs K (t + 1) idxs sel s2 fl h hps
      cases fl with
      | true =>
          rw [selLoop_step_true vecs idxs K relaxTo t sel s2 hps]
          have := hl.1 rfl; simp only; omega
      | false =>
          rw [selLoop_step_false vecs idxs K relaxTo t sel s2 hps]
          by_cases hrel : relaxTo < t + 1
          · rw [if_pos hrel]
            exact ih s2 (hl.2 rfl)
          · rw [if_neg hrel]
            have := hl.2 rfl; simp only; omega

/-- Pairwise-distance invariant of a selection at a threshold. -/
def PairwiseFar (vecs : List (List Int)) (sel : List Nat) (thr : Nat) : Prop :=
  ∀ i ∈ sel, ∀ j ∈ sel, i ≠ j → thr ≤ hamming (vecs.getD i []) (vecs.getD j [])

theorem passScan_pairwise (vecs : List (List Int)) (K thr : Nat) :
    ∀ rest sel, PairwiseFar vecs sel thr →
      PairwiseFar vecs (passScan vecs K thr rest sel).1 thr := by
  intro rest
  induction rest with
  | nil => intro sel h; exact h
  | cons k tl ih =>
      intro sel h
      unfold passScan
      by_cases hall :
          sel.all (fun j => thr ≤ hamming (vecs.getD k []) (vecs.getD j [])) = true
      · have hfar : ∀ j ∈ sel, thr ≤ hamming (vecs.getD k []) (vecs.getD j []) := by
          intro j hj
          have := List.all_eq_true.mp hall j hj
          exact of_decide_eq_true this
        have hsel2 : PairwiseFar vecs (sel ++ [k]) thr := by
          intro i hi j hj hij
          rcases List.mem_append.mp hi with hi2 | hi2 <;>
            rcases List.mem_append.mp hj with hj2 | hj2
          · exact h i hi2 j hj2 hij
          · have : j = k := by simpa using hj2
            subst this
            exact hamming_comm (vecs.getD i []) (vecs.getD j []) ▸ hfar i hi2
          · have : i = k := by simpa using hi2
            subst this
            exact hfar j hj2
          · have h1 : i = k := by simpa using hi2
            have h2 : j = k := by simpa using hj2
            exact absurd (h1.trans h2.symm) hij
        simp only [hall, if_true]
        by_cases hK : (sel ++ [k]).length = K
        · simpa [hK] using hsel2
        · simp only [hK, if_false]
          exact ih (sel ++ [k]) hsel2
      · simp only [hall, if_false]
        exact ih sel h

theorem pairwiseFar_mono (vecs : List (List Int)) (sel : List Nat)
    {a b : Nat} (hab : a ≤ b) (h : PairwiseFar vecs sel b) :
    PairwiseFar vecs sel a :=
  fun i hi j hj hij => le_trans hab (h i hi j hj hij)

theorem selLoop_pairwise (vecs : List (List Int)) (idxs : List Nat)
    (K relaxTo : Nat) :
    ∀ thr sel, PairwiseFar vecs sel thr →
      PairwiseFar vecs (selLoop vecs idxs K relaxTo thr sel).1
        (selLoop vecs idxs K relaxTo thr sel).2 := by
  intro thr
  induction thr with
  | zero =>
      intro sel h
      rcases hps : passScan vecs K 0 idxs sel with ⟨sel2, fl⟩
      have hpass := passScan_pairwise vecs K 0 idxs sel h
      rw [hps] at hpass
      have : selLoop vecs idxs K relaxTo 0 sel = ((sel2, fl).1, 0) := by
        unfold selLoop; rw [hps]
      rw [this]
      exact hpass
  | succ t ih =>
      intro sel h
      rcases hps : passScan vecs K (t + 1) idxs sel with ⟨sel2, fl⟩
      have hpass := passScan_pairwise vecs K (t + 1) idxs sel h
      rw [hps] at hpass
      cases fl with
      | true =>
          rw [selLoop_step_true vecs idxs K relaxTo t sel sel2 hps]
          exact hpass
      | false =>
          rw [selLoop_step_false vecs idxs K relaxTo t sel sel2 hps]
          by_cases hrel : relaxTo < t + 1
          · rw [if_pos hrel]
            exact ih sel2 (pairwiseFar_mono vecs sel2 (by omega) hpass)
          · rw [if_neg hrel]
            exact hpass

end TG

/-- C3 (amended): for every pool, K at least 1 and requested threshold L, the
selector returns at most K solutions and any two distinct selected pool
indices are at Hamming distance at least the threshold the loop actually
reached; but the metadata field "L" reports the requested L, not that
achieved threshold. -/
theorem tg_select_diverse_amended (objs : List Int) (vecs : List (List Int))
    (K L : Nat) (hK : 0 < K) :
    (TG.select_diverse_k objs vecs K L 0).length ≤ K ∧
    TG.PairwiseFar vecs (TG.select_diverse_k_full objs vecs K L 0).1
      (TG.select_diverse_k_full objs vecs K L 0).2 ∧
    (TG.solveTwoPhaseMeta objs vecs K L).L = L := by
  refine ⟨?_, ?_, rfl⟩
  · unfold TG.select_diverse_k TG.select_diverse_k_full
    exact TG.selLoop_length vecs _ K 0 L [] (by simpa using hK)
  · unfold TG.select_diverse_k_full
    exact TG.selLoop_pairwise vecs _ K 0 L []
      (fun i hi => by simp at hi)

/-- Witness for C3 (amended) at a concrete pool of two vectors. -/
theorem tg_select_diverse_amended_witness :
    (0 < 2) ∧
    ((TG.select_diverse_k [0, 1] [[0, 0], [1, 0]] 2 5 0).length ≤ 2 ∧
    TG.PairwiseFar [[0, 0], [1, 0]]
      (TG.select_diverse_k_full [0, 1] [[0, 0], [1, 0]] 2 5 0).1
      (TG.select_diverse_k_full [0, 1] [[0, 0], [1, 0]] 2 5 0).2 ∧
    (TG.solveTwoPhaseMeta [0, 1] [[0, 0], [1, 0]] 2 5).L = 5) :=
  ⟨by decide, tg_select_diverse_amended [0, 1] [[0, 0], [1, 0]] 2 5 (by decide)⟩

/-- C3 counterexample: on a pool of two solutions at Hamming distance 1 with
requested L = 5, the loop only succeeds after relaxing the threshold to 1,
yet the metadata reports L = 5.  The threshold actually achieved is not what
is reported. -/
theorem tg_select_diverse_meta_cex :
    (TG.select_diverse_k_full [0, 1] [[0, 0], [1, 0]] 2 5 0).2 = 1 ∧
    (TG.solveTwoPhaseMeta [0, 1] [[0, 0], [1, 0]] 2 5).L = 5 ∧
    (1 : Nat) ≠ 5 := by
  refine ⟨by decide, rfl, by decide⟩

/-- C4 (code bug): the testcase_gui selector evaluated at a pool of two
distinct solutions with K = 3, L = 1, relaxation floor 0.  Once the threshold
reaches 0 the rescan accepts already-selected indices (distance 0 to
themselves), so pool element 0 is returned twice instead of the slots being
filled with best remaining not-yet-selected candidates. -/
theorem tg_select_diverse_duplicate_eval :
    TG.select_diverse_k [0, 1] [[0, 0], [1, 0]] 3 1 0 = [0, 1, 0] := by
  decide

namespace TG

/-! ## Solver time budgets (build_model lines 1236-1248, solve_two_phase
lines 1599-1617)

Python floats are embedded as rationals; every numeral appearing in the
theorems below is exactly representable in binary floating point, where the
two arithmetics agree. -/

/-- The solver sub-dict of the constants; absent keys are none and get_num
supplies the defaults at the use sites. -/
structure SolverConsts where
  max_time_in_seconds : Option ℚ
  phase1_fraction : Option ℚ

/-- get_num(consts, 'solver', 'max_time_in_seconds', default=120). -/
def totalTime (sc : SolverConsts) : ℚ := sc.max_time_in_seconds.getD 120

/-- get_num(consts, 'solver', 'phase1_fraction', default=0.4). -/
def phase1Fraction (sc : SolverConsts) : ℚ := sc.phase1_fraction.getD (2 / 5)

/-- t1 as computed in solve_two_phase line 1604: the planned phase-1 share of
the budget (never actually handed to the phase-1 solver). -/
def t1 (sc : SolverConsts) : ℚ := max 5 (totalTime sc * phase1Fraction sc)

/-- t2 as computed in solve_two_phase line 1605 and installed as the phase-2
max_time_in_seconds (line 1617): the total minus the planned (not the
actually elapsed) phase-1 time, floored at 5 seconds. -/
def t2 (sc : SolverConsts) : ℚ := max 5 (totalTime sc - t1 sc)

/-- The wall-clock limit the phase-1 solve actually runs with: build_model
line 1238 sets solver.parameters.max_time_in_seconds = float(120),
independently of the constants. -/
def phase1SolveTimeLimit (_sc : SolverConsts) : ℚ := 120

end TG

/-- C5 counterexample: with a total budget of 1000 seconds and
phase1_fraction one half, the claimed phase-1 budget
total times fraction (floored at 5) is 500 seconds, but the phase-1 solve is
launched with a hardcoded 120-second limit. -/
theorem tg_time_budget_cex :
    TG.t1 { max_time_in_seconds := some 1000, phase1_fraction := some (1 / 2) } = 500 ∧
    TG.phase1SolveTimeLimit
      { max_time_in_seconds := some 1000, phase1_fraction := some (1 / 2) } = 120 ∧
    (500 : ℚ) ≠ 120 := by
  refine ⟨?_, rfl, by norm_num⟩
  unfold TG.t1 TG.totalTime TG.phase1Fraction
  norm_num

/-- C5 (amended): the phase-1 solve always runs with a fixed 120-second
limit regardless of the constants; solve_two_phase computes the planned
split t1 = max(5, total x fraction) but only uses it to derive the phase-2
budget t2 = max(5, total - t1), which is relative to the planned rather than
the actually elapsed phase-1 time. -/
theorem tg_time_budget_amended (sc : TG.SolverConsts) :
    TG.phase1SolveTimeLimit sc = 120 ∧
    TG.t1 sc = max 5 (TG.totalTime sc * TG.phase1Fraction sc) ∧
    TG.t2 sc = max 5 (TG.totalTime sc - TG.t1 sc) :=
  ⟨rfl, rfl, rfl⟩

namespace TG

/-! ## AssignmentPoolCollector (testcase_gui.py lines 1490-1571)

The collector state keeps, per pool entry, the objective value (the table and
meta dict payloads do not influence control flow and are elided) and the
dense bit vector; _seen_vecs is embedded as a list used only through
membership. -/

structure CollectorState where
  pool : List Int
  pool_vecs : List (List Int)
  seen_vecs : List (List Int)
  best : Option Int

def initCollector : CollectorState :=
  { pool := [], pool_vecs := [], seen_vecs := [], best := none }

/-- Python max(range(n), key=objs index) over a nonempty list: first index of
a maximal element. -/
def argmaxAux : List Int → Nat → Nat → Int → Nat
  | [], _, bi, _ => bi
  | v :: t, i, bi, bv => if bv < v then argmaxAux t (i + 1) i v else argmaxAux t (i + 1) bi bv

def argmaxIdx : List Int → Nat
  | [] => 0
  | v :: t => argmaxAux t 1 0 v

/-- Python min(range(n), key=objs index): first index of a minimal element. -/
def argminAux : List Int → Nat → Nat → Int → Nat
  | [], _, bi, _ => bi
  | v :: t, i, bi, bv => if v < bv then argminAux t (i + 1) i v else argminAux t (i + 1) bi bv

def argminIdx : List Int → Nat
  | [] => 0
  | v :: t => argminAux t 1 0 v

/-- The _best update at the top of on_solution_callback (lines 1523-1530). -/
def updateBest (sense : Bool) (best : Option Int) (obj : Int) : Option Int :=
  match best with
  | none => some obj
  | some b => if sense then (if obj < b then some obj else some b)
              else (if b < obj then some obj else some b)

/-- The obj_slack gate (lines 1532-1536): true when the callback returns
early because the new solution is too far from the incumbent. -/
def slackGate (sense : Bool) (obj_slack : Option Int) (best : Option Int)
    (obj : Int) : Bool :=
  match obj_slack, best with
  | some sl, some b => if sense then decide (b + sl < obj) else decide (obj < b - sl)
  | _, _ => false

/-- on_solution_callback (lines 1522-1571) as a state transition on the
collector, fed the solution's objective value and packed bit vector.
sense true embeds sense='min'.  The early returns keep the pool unchanged
but with _best already updated (the source updates _best before any gate). -/
def collectorStep (sense : Bool) (obj_slack : Option Int)
    (pool_limit : Option Nat) (dedup : Bool)
    (st : CollectorState) (obj : Int) (vec : List Int) : CollectorState :=
  if slackGate sense obj_slack (updateBest sense st.best obj) obj then
    { pool := st.pool, pool_vecs := st.pool_vecs, seen_vecs := st.seen_vecs,
      best := updateBest sense st.best obj }
  else if dedup && st.seen_vecs.contains vec then
    { pool := st.pool, pool_vecs := st.pool_vecs, seen_vecs := st.seen_vecs,
      best := updateBest sense st.best obj }
  else
    match pool_limit with
    | some lim =>
        if lim ≤ st.pool.length then
          let wi := if sense then argmaxIdx st.pool else argminIdx st.pool
          if (if sense then decide (st.pool.getD wi 0 ≤ obj)
              else decide (obj ≤ st.pool.getD wi 0)) then
            { pool := st.pool, pool_vecs := st.pool_vecs, seen_vecs := st.seen_vecs,
              best := updateBest sense st.best obj }
          else
            { pool := st.pool.eraseIdx wi ++ [obj]
              pool_vecs := st.pool_vecs.eraseIdx wi ++ [vec]
              seen_vecs := if dedup then st.seen_vecs ++ [vec] else st.seen_vecs
              best := updateBest sense st.best obj }
        else
          { pool := st.pool ++ [obj]
            pool_vecs := st.pool_vecs ++ [vec]
            seen_vecs := if dedup then st.seen_vecs ++ [vec] else st.seen_vecs
            best := updateBest sense st.best obj }
    | none =>
        { pool := st.pool ++ [obj]
          pool_vecs := st.pool_vecs ++ [vec]
          seen_vecs := if dedup then st.seen_vecs ++ [vec] else st.seen_vecs
          best := updateBest sense st.best obj }

/-- A whole phase-2 search: the engine invokes the callback once per found
solution, in order. -/
def collectorRun (sense : Bool) (obj_slack : Option Int)
    (pool_limit : Option Nat) (dedup : Bool)
    (sols : List (Int × List Int)) : CollectorState :=
  sols.foldl (fun st p => collectorStep sense obj_slack pool_limit dedup st p.1 p.2)
    initCollector

/-- The collector invariant: pool and vector lists stay aligned, pool vectors
are pairwise distinct, every pool vector has been recorded as seen, and the
pool never exceeds the limit. -/
def CollectorInv (lim : Nat) (st : CollectorState) : Prop :=
  st.pool.length = st.pool_vecs.length ∧
  st.pool_vecs.Nodup ∧
  (∀ v ∈ st.pool_vecs, v ∈ st.seen_vecs) ∧
  st.pool.length ≤ lim

theorem argmaxAux_lt {N : Nat} :
    ∀ (l : List Int) (i bi : Nat) (bv : Int), bi < N → i + l.length ≤ N →
      argmaxAux l i bi bv < N := by
  intro l
  induction l with
  | nil => intro i bi bv hbi _; exact hbi
  | cons v t ih =>
      intro i bi bv hbi hlen
      unfold argmaxAux
      simp only [List.length_cons] at hlen
      by_cases hc : bv < v
      · rw [if_pos hc]
        exact ih (i + 1) i v (by omega) (by omega)
      · rw [if_neg hc]
        exact ih (i + 1) bi bv hbi (by omega)

theorem argminAux_lt {N : Nat} :
    ∀ (l : List Int) (i bi : Nat) (bv : Int), bi < N → i + l.length ≤ N →
      argminAux l i bi bv < N := by
  intro l
  induction l with
  | nil => intro i bi bv hbi _; exact hbi
  | cons v t ih =>
      intro i bi bv hbi hlen
      unfold argminAux
      simp only [List.length_cons] at hlen
      by_cases hc : v < bv
      · rw [if_pos hc]
        exact ih (i + 1) i v (by omega) (by omega)
      · rw [if_neg hc]
        exact ih (i + 1) bi bv hbi (by omega)

theorem argmaxIdx_lt_length (l : List Int) (h : l ≠ []) : argmaxIdx l < l.length := by
  cases l with
  | nil => exact absurd rfl h
  | cons v t =>
      unfold argmaxIdx
      simp only [List.length_cons]
      exact argmaxAux_lt t 1 0 v (by omega) (by omega)

theorem argminIdx_lt_length (l : List Int) (h : l ≠ []) : argminIdx l < l.length := by
  cases l with
  | nil => exact absurd rfl h
  | cons v t =>
      unfold argminIdx
      simp only [List.length_cons]
      exact argminAux_lt t 1 0 v (by omega) (by omega)

theorem collectorInv_init (lim : Nat) : CollectorInv lim initCollector := by
  refine ⟨rfl, List.nodup_nil, ?_, ?_⟩
  · intro v hv; cases hv
  · simp [initCollector]

theorem eraseIdx_mem {α : Type} {l : List α} {i : Nat} {a : α}
    (h : a ∈ l.eraseIdx i) : a ∈ l :=
  (List.eraseIdx_sublist l i).mem h

theorem collectorInv_step (sense : Bool) (obj_slack : Option Int)
    (lim : Nat) (hlim : 0 < lim)
    (st : CollectorState) (obj : Int) (vec : List Int)
    (h : CollectorInv lim st) :
    CollectorInv lim (collectorStep sense obj_slack (some lim) true st obj vec) := by
  obtain ⟨hlen, hnd, hsub, hbound⟩ := h
  unfold collectorStep
  by_cases hg : slackGate sense obj_slack (updateBest sense st.best obj) obj = true
  · rw [if_pos hg]
    exact ⟨hlen, hnd, hsub, hbound⟩
  · rw [if_neg hg]
    by_cases hseen : st.seen_vecs.contains vec = true
    · rw [if_pos (by simpa using (by simpa using hseen : vec ∈ st.seen_vecs))]
      exact ⟨hlen, hnd, hsub, hbound⟩
    · have hnotseen : vec ∉ st.seen_vecs := by simpa using hseen
      rw [if_neg (by simpa using hnotseen)]
      have hnotpool : vec ∉ st.pool_vecs := fun hm => hnotseen (hsub vec hm)
      simp only []
      by_cases hfull : lim ≤ st.pool.length
      · rw [if_pos hfull]
        set wi := if sense then argmaxIdx st.pool else argminIdx st.pool with hwi
        by_cases hcmp : (if sense then decide (st.pool.getD wi 0 ≤ obj)
            else decide (obj ≤ st.pool.getD wi 0)) = true
        · rw [if_pos hcmp]
          exact ⟨hlen, hnd, hsub, hbound⟩
        · rw [if_neg hcmp]
          have hpoolne : st.pool ≠ [] := by
            intro he
            rw [he] at hfull
            simp only [List.length_nil, Nat.le_zero] at hfull
            omega
          have hwilt : wi < st.pool.length := by
            rw [hwi]
            cases sense
            · simpa using argminIdx_lt_length st.pool hpoolne
            · simpa using argmaxIdx_lt_length st.pool hpoolne
          have hwilt2 : wi < st.pool_vecs.length := by omega
          refine ⟨?_, ?_, ?_, ?_⟩
          · simp only [List.length_append, List.length_cons, List.length_nil]
            rw [List.length_eraseIdx_of_lt hwilt, List.length_eraseIdx_of_lt hwilt2]
            omega
          · apply List.Nodup.append
            · exact List.Nodup.sublist (List.eraseIdx_sublist _ _) hnd
            · exact List.nodup_singleton vec
            · intro a ha hb
              have hav : a = vec := by simpa using hb
              subst hav
              exact hnotpool (eraseIdx_mem ha)
          · intro v hv
            rcases List.mem_append.mp hv with hv2 | hv2
            · exact List.mem_append_left _ (hsub v (eraseIdx_mem hv2))
            · have hvv : v = vec := by simpa using hv2
              subst hvv
              exact List.mem_append_right _ (by simp)
          · simp only [List.length_append, List.length_cons, List.length_nil]
            rw [List.length_eraseIdx_of_lt hwilt]
            omega
      · rw [if_neg hfull]
        refine ⟨?_, ?_, ?_, ?_⟩
        · simp only [List.length_append, List.length_cons, List.length_nil]; omega
        · apply List.Nodup.append hnd (List.nodup_singleton vec)
          intro a ha hb
          have hav : a = vec := by simpa using hb
          subst hav
          exact hnotpool ha
        · intro v hv
          rcases List.mem_append.mp hv with hv2 | hv2
          · exact List.mem_append_left _ (hsub v hv2)
          · have hvv : v = vec := by simpa using hv2
            subst hvv
            exact List.mem_append_right _ (by simp)
        · simp only [List.length_append, List.length_cons, List.length_nil]
          omega

theorem collectorInv_run (sense : Bool) (obj_slack : Option Int)
    (lim : Nat) (hlim : 0 < lim) (sols : List (Int × List Int)) :
    CollectorInv lim (collectorRun sense obj_slack (some lim) true sols) := by
  unfold collectorRun
  have hgen : ∀ (l : List (Int × List Int)) (st : CollectorState),
      CollectorInv lim st →
      CollectorInv lim
        (l.foldl (fun st p => collectorStep sense obj_slack (some lim) true st p.1 p.2) st) := by
    intro l
    induction l with
    | nil => intro st h; exact h
    | cons p t ih =>
        intro st h
        exact ih _ (collectorInv_step sense obj_slack lim hlim st p.1 p.2 h)
  exact hgen sols initCollector (collectorInv_init lim)

/-- The dedup early return (lines 1539-1540): a solution whose packed vector
was already recorded leaves pool, pool vectors and seen vectors unchanged
(only the incumbent objective may move). -/
theorem collectorStep_skips_seen (sense : Bool) (obj_slack : Option Int)
    (pool_limit : Option Nat) (st : CollectorState) (obj : Int) (vec : List Int)
    (hseen : vec ∈ st.seen_vecs) :
    (collectorStep sense obj_slack pool_limit true st obj vec).pool = st.pool ∧
    (collectorStep sense obj_slack pool_limit true st obj vec).pool_vecs = st.pool_vecs ∧
    (collectorStep sense obj_slack pool_limit true st obj vec).seen_vecs = st.seen_vecs := by
  unfold collectorStep
  by_cases hg : slackGate sense obj_slack (updateBest sense st.best obj) obj = true
  · rw [if_pos hg]
    exact ⟨rfl, rfl, rfl⟩
  · rw [if_neg hg, if_pos (by simpa using hseen)]
    exact ⟨rfl, rfl, rfl⟩

end TG

/-- C8: during phase-2 pool collection with the pipeline configuration
(sense='min', no objective slack gate, dedup on, a positive pool bound): a
callback whose bit vector is already recorded leaves the pool untouched, no
two pool entries ever share a bit vector, and the pool length never exceeds
the bound — after every prefix of the solution stream. -/
theorem tg_pool_collector_invariants (lim : Nat) (hlim : 0 < lim)
    (sols : List (Int × List Int)) :
    ((TG.collectorRun true none (some lim) true sols).pool.length ≤ lim ∧
     (TG.collectorRun true none (some lim) true sols).pool_vecs.Nodup) ∧
    (∀ obj vec, vec ∈ (TG.collectorRun true none (some lim) true sols).seen_vecs →
      (TG.collectorStep true none (some lim) true
          (TG.collectorRun true none (some lim) true sols) obj vec).pool =
        (TG.collectorRun true none (some lim) true sols).pool ∧
      (TG.collectorStep true none (some lim) true
          (TG.collectorRun true none (some lim) true sols) obj vec).pool_vecs =
        (TG.collectorRun true none (some lim) true sols).pool_vecs) := by
  obtain ⟨hl, hnd, hsub, hb⟩ := TG.collectorInv_run true none lim hlim sols
  refine ⟨⟨hb, hnd⟩, ?_⟩
  intro obj vec hseen
  obtain ⟨h1, h2, _⟩ := TG.collectorStep_skips_seen true none (some lim)
    (TG.collectorRun true none (some lim) true sols) obj vec hseen
  exact ⟨h1, h2⟩

/-- Witness for C8 at the bound 20000 used by solve_two_phase (line 1641) and
a concrete three-solution stream containing a duplicate vector. -/
theorem tg_pool_collector_invariants_witness :
    (0 < 20000) ∧
    (((TG.collectorRun true none (some 20000) true
        [(5, [1, 0]), (5, [1, 0]), (3, [0, 1])]).pool.length ≤ 20000 ∧
     (TG.collectorRun true none (some 20000) true
        [(5, [1, 0]), (5, [1, 0]), (3, [0, 1])]).pool_vecs.Nodup) ∧
    (∀ obj vec, vec ∈ (TG.collectorRun true none (some 20000) true
          [(5, [1, 0]), (5, [1, 0]), (3, [0, 1])]).seen_vecs →
      (TG.collectorStep true none (some 20000) true
          (TG.collectorRun true none (some 20000) true
            [(5, [1, 0]), (5, [1, 0]), (3, [0, 1])]) obj vec).pool =
        (TG.collectorRun true none (some 20000) true
          [(5, [1, 0]), (5, [1, 0]), (3, [0, 1])]).pool ∧
      (TG.collectorStep true none (some 20000) true
          (TG.collectorRun true none (some 20000) true
            [(5, [1, 0]), (5, [1, 0]), (3, [0, 1])]) obj vec).pool_vecs =
        (TG.collectorRun true none (some 20000) true
          [(5, [1, 0]), (5, [1, 0]), (3, [0, 1])]).pool_vecs)) :=
  ⟨by decide, tg_pool_collector_invariants 20000 (by decide)
    [(5, [1, 0]), (5, [1, 0]), (3, [0, 1])]⟩

namespace TG

/-! ## Validation behaviour of build_model before the phase-1 solve
(testcase_gui.py lines 989-1248)

build_model raises plain Python exceptions at three points before
solver.Solve is reached: day_name on each calendar day (the weekend_idx
comprehension, line 994), the date_to_idx lookup for each shift (line 1005,
KeyError), and datetime.fromisoformat inside the 12-hour loop (lines
1128-1134, ValueError) — the latter only for ordered pairs of shifts with
distinct ids.  Each check is embedded as an Except value in source order. -/

/-- Iterate a fallible check over a list, stopping at the first error: the
effect of a Python loop or comprehension that may raise. -/
def checkList {α β : Type} (f : α → Except String β) : List α → Except String Unit
  | [] => .ok ()
  | a :: t =>
      match f a with
      | .error e => .error e
      | .ok _ => checkList f t

/-- day_name (line 752-754) as a fallible computation: int()/date raise
ValueError on a malformed date. -/
def day_nameE (s : String) : Except String String :=
  match dayNameOpt s with
  | some n => .ok n
  | none => .error ("ValueError: invalid date " ++ s)

/-- The date_to_idx lookup of line 1005: KeyError when a shift references a
date absent from the calendar. -/
def checkShiftDate (days : List String) (sh : Shift) : Except String Nat :=
  match days.indexOf? sh.date with
  | some i => .ok i
  | none => .error ("KeyError: " ++ sh.date)

/-- fromisoformat after the timezone strip (lines 1128-1134). -/
def parseE (s : String) : Except String Int :=
  match fromisoformat (stripTZ s) with
  | some t => .ok t
  | none => .error ("ValueError: invalid isoformat string " ++ s)

/-- One iteration of the 12-hour pair loop (lines 1122-1134), error effects
only: pairs sharing an id are skipped before any parsing; otherwise the two
start stamps and the first end stamp are parsed in source order. -/
def checkPair (shifts : List Shift) (p : Nat × Nat) : Except String Unit :=
  let sh1 := shifts.getD p.1 defaultShift
  let sh2 := shifts.getD p.2 defaultShift
  if sh1.id = sh2.id then .ok ()
  else
    match parseE sh1.start with
    | .error e => .error e
    | .ok _ =>
        match parseE sh2.start with
        | .error e => .error e
        | .ok _ =>
            match parseE sh1.endT with
            | .error e => .error e
            | .ok _ => .ok ()

/-- The index pairs scanned by the nested loops for iter1 in S: for iter2 in S. -/
def pairSeq (n : Nat) : List (Nat × Nat) :=
  (List.range n).flatMap (fun i1 => (List.range n).map (fun i2 => (i1, i2)))

/-- The failure points of build_model that can fire before the phase-1
solver.Solve call of line 1248, in source order. -/
def precheck (c : Case) : Except String Unit :=
  match checkList day_nameE c.calendar.days with
  | .error e => .error e
  | .ok _ =>
      match checkList (checkShiftDate c.calendar.days) c.shifts with
      | .error e => .error e
      | .ok _ =>
          match checkList (checkPair c.shifts) (pairSeq c.shifts.length) with
          | .error e => .error e
          | .ok _ => .ok ()

/-- The phase-1 solve of line 1248 is reached exactly when no earlier
statement raised. -/
def phase1Starts (c : Case) : Bool :=
  (precheck c).isOk

theorem checkList_error_of_mem {α β : Type} (f : α → Except String β)
    (l : List α) (a : α) (ha : a ∈ l) (hf : (f a).isOk = false) :
    (checkList f l).isOk = false := by
  induction l with
  | nil => cases ha
  | cons b t ih =>
      unfold checkList
      rcases hfb : f b with e | v
      · rfl
      · rcases List.mem_cons.mp ha with hab | hat
        · rw [hab, hfb] at hf
          exact nomatch hf
        · exact ih hat

end TG

/-- C9 counterexample: a case whose single shift has an unparseable start
and end timestamp.  With only one shift the 12-hour pair loop never parses
any timestamp (every pair shares the shift's id), so no validation error is
raised before the solve: build_model proceeds and the phase-1 solve starts,
contradicting the claim that unparseable timestamps fail synchronously. -/
theorem tg_precheck_cex :
    fromisoformat (stripTZ "garbage") = none ∧
    TG.phase1Starts
      { calendar := { days := ["2024-01-06"], weekend_days := ["Saturday", "Sunday"] }
        shifts := [{ id := "S1", date := "2024-01-06", type := "MD_day",
                     start := "garbage", endT := "garbage",
                     allowed_provider_types := ["MD"] }]
        providers := [{ defaultProvider with name := "Alice", type := "MD" }] } = true := by
  exact ⟨rfl, rfl⟩

/-- C9 (amended): a shift referencing a date absent from the calendar always
aborts model construction before any solve; an unparseable start or end
timestamp aborts before any solve provided some other shift with a different
id exists (the 12-hour pair loop is what parses timestamps, and it skips
same-id pairs, so a case with fewer than two distinct shift ids never has its
timestamps validated). -/
theorem tg_precheck_amended (c : Case)
    (h : (∃ sh ∈ c.shifts, sh.date ∉ c.calendar.days) ∨
         (∃ a ∈ c.shifts, ∃ b ∈ c.shifts, a.id ≠ b.id ∧
           (fromisoformat (stripTZ a.start) = none ∨
            fromisoformat (stripTZ a.endT) = none))) :
    TG.phase1Starts c = false := by
  unfold TG.phase1Starts TG.precheck
  rcases hdays : TG.checkList TG.day_nameE c.calendar.days with e | u
  · rfl
  · rcases h with ⟨sh, hm, hd⟩ | ⟨a, ham, b, hbm, hid, hbad⟩
    · have herr : (TG.checkShiftDate c.calendar.days sh).isOk = false := by
        unfold TG.checkShiftDate
        have : c.calendar.days.indexOf? sh.date = none := by
          apply List.indexOf?_eq_none_iff.mpr
          intro x hx
          simp only [beq_iff_eq]
          intro he
          exact hd (he ▸ hx)
        rw [this]
        rfl
      have := TG.checkList_error_of_mem (TG.checkShiftDate c.calendar.days)
        c.shifts sh hm herr
      rcases hsd : TG.checkList (TG.checkShiftDate c.calendar.days) c.shifts with e2 | u2
      · rfl
      · rw [hsd] at this
        cases this
    · obtain ⟨ia, hia, hga⟩ := List.mem_iff_getElem.mp ham
      obtain ⟨ib, hib, hgb⟩ := List.mem_iff_getElem.mp hbm
      have hmempair : (ia, ib) ∈ TG.pairSeq c.shifts.length := by
        unfold TG.pairSeq
        exact List.mem_flatMap.mpr ⟨ia, List.mem_range.mpr hia,
          List.mem_map.mpr ⟨ib, List.mem_range.mpr hib, rfl⟩⟩
      have hda : c.shifts.getD ia defaultShift = a := by
        rw [List.getD_eq_getElem c.shifts defaultShift hia, hga]
      have hdb : c.shifts.getD ib defaultShift = b := by
        rw [List.getD_eq_getElem c.shifts defaultShift hib, hgb]
      have herr : (TG.checkPair c.shifts (ia, ib)).isOk = false := by
        unfold TG.checkPair
        simp only [hda, hdb]
        rw [if_neg hid]
        rcases hbad with hbad | hbad
        · have : TG.parseE a.start = .error
              ("ValueError: invalid isoformat string " ++ a.start) := by
            unfold TG.parseE
            rw [hbad]
          rw [this]
          rfl
        · rcases hps : TG.parseE a.start with e | t1
          · rfl
          · rcases hps2 : TG.parseE b.start with e | t2
            · rfl
            · have : TG.parseE a.endT = .error
                  ("ValueError: invalid isoformat string " ++ a.endT) := by
                unfold TG.parseE
                rw [hbad]
              rw [this]
              rfl
      have := TG.checkList_error_of_mem (TG.checkPair c.shifts)
        (TG.pairSeq c.shifts.length) (ia, ib) hmempair herr
      rcases hsd : TG.checkList (TG.checkShiftDate c.calendar.days) c.shifts with e2 | u2
      · rfl
      · rcases hpp : TG.checkList (TG.checkPair c.shifts)
            (TG.pairSeq c.shifts.length) with e3 | u3
        · rfl
        · rw [hpp] at this
          cases this

def c9MissingCase : Case :=
  { calendar := { days := ["2024-01-06"], weekend_days := ["Saturday", "Sunday"] }
    shifts := [{ id := "S1", date := "2099-09-09", type := "MD_day",
                 start := "2024-01-06T08:00:00", endT := "2024-01-06T17:00:00",
                 allowed_provider_types := ["MD"] }]
    providers := [{ defaultProvider with name := "Alice", type := "MD" }] }

/-- Witness for C9 (amended): a shift dated 2099-09-09 while the calendar
holds only 2024-01-06 stops model construction before any solve. -/
theorem tg_precheck_amended_witness :
    (∃ sh ∈ c9MissingCase.shifts, sh.date ∉ c9MissingCase.calendar.days) ∧
    TG.phase1Starts c9MissingCase = false :=
  ⟨by decide, tg_precheck_amended c9MissingCase (Or.inl (by decide))⟩

namespace TG

/-! ## build_model (testcase_gui.py lines 989-1459): the phase-1 constraint
system

The CpModel is embedded as a family of predicates over a valuation of its
integer variables; NewBoolVar and NewIntVar domains become the Domains
predicate, each model.Add loop becomes one predicate, and engine constraints
AddMaxEquality / AddMultiplicationEquality / AddAtMostOne are embedded by
their documented semantics (equality with max, with product, and a sum bound
on two literals). -/

/-- Python string comparison (code-point lexicographic), character level. -/
def charListLe : List Char → List Char → Bool
  | [], _ => true
  | _ :: _, [] => false
  | a :: s, b :: t =>
      if a.toNat < b.toNat then true
      else if b.toNat < a.toNat then false
      else charListLe s t

def strLe (a b : String) : Bool := charListLe a.data b.data

def nS (c : Case) : Nat := c.shifts.length
def nP (c : Case) : Nat := c.providers.length
def nD (c : Case) : Nat := c.calendar.days.length

def shiftG (c : Case) (s : Nat) : Shift := c.shifts.getD s defaultShift

def provG (c : Case) (j : Nat) : Provider := c.providers.getD j defaultProvider

/-- shift_day (line 1005): index of each shift's date in the calendar; the
precheck guarantees the lookup succeeds. -/
def shiftDay (c : Case) (s : Nat) : Nat :=
  c.calendar.days.indexOf (shiftG c s).date

def shiftType (c : Case) (s : Nat) : String := (shiftG c s).type

/-- day_to_shifts (lines 1009-1010). -/
def dayToShifts (c : Case) (d : Nat) : List Nat :=
  (List.range (nS c)).filter (fun s => shiftDay c s == d)

/-- types = sorted(set(shift_type)) (line 1007). -/
def typesList (c : Case) : List String :=
  ((c.shifts.map (fun sh => sh.type)).dedup).insertionSort (fun a b => strLe a b = true)

/-- max_consec (lines 1030-1031): the per-provider cap; 0 means no cap (the
source maps every falsy value to 0 and the loader defaults a non-int field
to 1000). -/
def maxConsec (c : Case) (j : Nat) : Int := (provG c j).max_consecutive_days

/-- lim.get('min_total', 0) at line 1166. -/
def minTotal (c : Case) (j : Nat) : Int := (provG c j).limits.min_total.getD 0

/-- lim.get('max_total', len(S)) at line 1167. -/
def maxTotal (c : Case) (j : Nat) : Int :=
  (provG c j).limits.max_total.getD (nS c : Int)

/-- Shifts falling on a provider's hard-forbidden dates (line 1175). -/
def forbiddenShifts (c : Case) (j : Nat) : List Nat :=
  (List.range (nS c)).filter
    (fun s => (provG c j).forbidden_days_hard.contains (shiftG c s).date)

/-- The hard-ON entries build_model actually processes (lines 1189-1195):
dates present in the calendar whose requested type list is non-empty, mapped
to day indices. -/
def hardOnEntries (c : Case) (j : Nat) : List (Nat × List String) :=
  (provG c j).preferred_days_hard.filterMap (fun e =>
    match c.calendar.days.indexOf? e.1 with
    | none => none
    | some d => if e.2 = [] then none else some (d, e.2))

/-- R at line 1202: the day's shifts matching the requested types (all of
them under the ANY sentinel). -/
def hardOnR (c : Case) (d : Nat) (tlist : List String) : List Nat :=
  if "ANY" ∈ tlist then dayToShifts c d
  else (dayToShifts c d).filter (fun s => tlist.contains (shiftType c s))

/-- is_too_close of the 12-hour loop (lines 1127-1146) as a total test:
false wherever fromisoformat would raise (those cases abort build_model
before any constraint is created, see the precheck section). -/
def pairTooClose (sh1 sh2 : Shift) : Bool :=
  match fromisoformat (stripTZ sh1.start), fromisoformat (stripTZ sh2.start),
      fromisoformat (stripTZ sh1.endT) with
  | some s1, some s2, some e1 =>
      if s1 > s2 then false
      else if s2 < e1 then true
      else decide (s2 - e1 < 12 * 3600)
  | _, _, _ => false

/-- A valuation of the phase-1 decision variables of build_model, keyed the
way the source names them (x by (shift, provider), the rest per provider
and/or day). -/
structure Valu where
  x : Nat → Nat → Int
  slack_unfilled : Nat → Int
  y : Nat → Nat → Int
  run : Nat → Nat → Int
  max_cluster : Nat → Int
  cluster_overrun : Nat → Int
  slack_consec : Nat → Int
  cluster_end : Nat → Nat → Int
  cluster_len : Nat → Nat → Int
  cluster_len_sq : Nat → Nat → Int
  cluster_len_cube : Nat → Nat → Int
  cluster_cubesum : Nat → Int
  slack_shift_less : Nat → Int
  slack_shift_more : Nat → Int
  slack_cant_work : Nat → Int
  hard_on_sel : Nat → Nat → Int
  hard_on_miss : Nat → Nat → Int
  slack_hard_on : Nat → Int
  U : Int

/-- The declared variable domains of the phase-1 variables (NewBoolVar is
the integer interval 0..1; the NewIntVar bounds are the ones written in the
source). -/
def phase1Domains (c : Case) (v : Valu) : Prop :=
  (∀ s < nS c, ∀ j < nP c, 0 ≤ v.x s j ∧ v.x s j ≤ 1) ∧
  (∀ s < nS c, 0 ≤ v.slack_unfilled s ∧ v.slack_unfilled s ≤ 1) ∧
  (∀ i < nP c, ∀ d < nD c, 0 ≤ v.y i d ∧ v.y i d ≤ 1) ∧
  (∀ i < nP c, ∀ d < nD c, 0 ≤ v.run i d ∧ v.run i d ≤ (nD c : Int)) ∧
  (∀ i < nP c, 0 ≤ v.max_cluster i ∧ v.max_cluster i ≤ (nD c : Int)) ∧
  (∀ i < nP c, -(nD c : Int) ≤ v.cluster_overrun i ∧
    v.cluster_overrun i ≤ (nD c : Int)) ∧
  (∀ i < nP c, 0 ≤ v.slack_consec i ∧ v.slack_consec i ≤ (nD c : Int)) ∧
  (∀ i < nP c, ∀ d < nD c, 0 ≤ v.cluster_end i d ∧ v.cluster_end i d ≤ 1) ∧
  (∀ i < nP c, ∀ d < nD c, 0 ≤ v.cluster_len i d ∧
    v.cluster_len i d ≤ (nD c : Int)) ∧
  (∀ i < nP c, ∀ d < nD c, 0 ≤ v.cluster_len_sq i d) ∧
  (∀ i < nP c, ∀ d < nD c, 0 ≤ v.cluster_len_cube i d) ∧
  (∀ i < nP c, 0 ≤ v.cluster_cubesum i) ∧
  (∀ j < nP c, 0 ≤ v.slack_shift_less j ∧ v.slack_shift_less j ≤ 1000) ∧
  (∀ j < nP c, 0 ≤ v.slack_shift_more j ∧ v.slack_shift_more j ≤ 1000) ∧
  (∀ j < nP c, 0 ≤ v.slack_cant_work j ∧ v.slack_cant_work j ≤ (nS c : Int)) ∧
  (∀ j < nP c, ∀ e ∈ hardOnEntries c j,
    (0 ≤ v.hard_on_sel j e.1 ∧ v.hard_on_sel j e.1 ≤ 1) ∧
    (0 ≤ v.hard_on_miss j e.1 ∧ v.hard_on_miss j e.1 ≤ 1)) ∧
  (∀ j < nP c, 0 ≤ v.slack_hard_on j ∧ v.slack_hard_on j ≤ 1000) ∧
  (0 ≤ v.U)

/-- Coverage (lines 1024-1027): every shift is assigned or unfilled, exactly. -/
def coverageCons (c : Case) (v : Valu) : Prop :=
  ∀ s < nS c, sumIdx (nP c) (fun j => v.x s j) + v.slack_unfilled s = 1

/-- Daily work indicators y (lines 1041-1053). -/
def yCons (c : Case) (v : Valu) : Prop :=
  ∀ i < nP c, ∀ d < nD c,
    (dayToShifts c d = [] → v.y i d = 0) ∧
    (dayToShifts c d ≠ [] →
      (∀ s ∈ dayToShifts c d, v.x s i ≤ v.y i d) ∧
      sumOver (dayToShifts c d) (fun s => v.x s i) ≥ v.y i d)

/-- Streak recurrences (lines 1058-1069), each equation guarded by its
OnlyEnforceIf literals. -/
def runCons (c : Case) (v : Valu) : Prop :=
  ∀ i < nP c,
    (v.y i 0 = 1 → v.run i 0 = 1) ∧
    (v.y i 0 = 0 → v.run i 0 = 0) ∧
    (∀ d < nD c, 1 ≤ d →
      (v.y i d = 0 → v.run i d = 0) ∧
      (v.y i d = 1 → v.y i (d - 1) = 0 → v.run i d = 1) ∧
      (v.y i d = 1 → v.y i (d - 1) = 1 → v.run i d = v.run i (d - 1) + 1))

/-- Maximum of a variable list, the semantics of AddMaxEquality. -/
def listMaxI : List Int → Int
  | [] => 0
  | a :: t => t.foldl max a

/-- AddMaxEquality(max_clusters[i], run) at line 1070. -/
def maxClusterCons (c : Case) (v : Valu) : Prop :=
  ∀ i < nP c,
    v.max_cluster i = listMaxI ((List.range (nD c)).map (fun d => v.run i d))

/-- Consecutive-day slack (lines 1072-1082): slack = max(0, cluster - cap)
when a positive cap is set, 0 otherwise (plus the redundant inequality of
line 1080). -/
def consecCons (c : Case) (v : Valu) : Prop :=
  ∀ i < nP c,
    (0 < maxConsec c i →
      v.cluster_overrun i = v.max_cluster i - maxConsec c i ∧
      v.slack_consec i = max (v.cluster_overrun i) 0 ∧
      maxConsec c i - v.max_cluster i + v.slack_consec i ≥ 0) ∧
    (¬ 0 < maxConsec c i → v.slack_consec i = 0)

/-- Cluster-end detection and cubed lengths (lines 1087-1118). -/
def cubeCons (c : Case) (v : Valu) : Prop :=
  ∀ i < nP c, ∀ d < nD c,
    (d < nD c - 1 →
      v.cluster_end i d ≥ v.y i d - v.y i (d + 1) ∧
      v.cluster_end i d ≤ v.y i d ∧
      v.cluster_end i d ≤ 1 - v.y i (d + 1)) ∧
    (¬ d < nD c - 1 → v.cluster_end i d = v.y i d) ∧
    (v.cluster_end i d = 1 → v.cluster_len i d = v.run i d) ∧
    (v.cluster_end i d = 0 → v.cluster_len i d = 0) ∧
    v.cluster_len_sq i d = v.cluster_len i d * v.cluster_len i d ∧
    v.cluster_len_cube i d = v.cluster_len_sq i d * v.cluster_len i d

/-- cluster_cubesums (lines 1115-1118). -/
def cubesumCons (c : Case) (v : Valu) : Prop :=
  ∀ i < nP c,
    v.cluster_cubesum i = sumIdx (nD c) (fun d => v.cluster_len_cube i d)

/-- 12-hour rest (lines 1121-1150): AddAtMostOne on each too-close pair with
distinct ids, for every provider. -/
def restCons (c : Case) (v : Valu) : Prop :=
  ∀ i1 < nS c, ∀ i2 < nS c,
    (shiftG c i1).id ≠ (shiftG c i2).id →
    pairTooClose (shiftG c i1) (shiftG c i2) = true →
    ∀ j < nP c, v.x i1 j + v.x i2 j ≤ 1

/-- Type eligibility (lines 1152-1155): x forced to 0 when the provider type
is not in the shift's allowed list (the raw list, not the inferred one). -/
def typeCons (c : Case) (v : Valu) : Prop :=
  ∀ s < nS c, ∀ j < nP c,
    (provG c j).type ∉ (shiftG c s).allowed_provider_types → v.x s j = 0

/-- Total-shift limits with slack (lines 1158-1169). -/
def limitCons (c : Case) (v : Valu) : Prop :=
  ∀ j < nP c,
    sumIdx (nS c) (fun i => v.x i j) + v.slack_shift_less j ≥ minTotal c j ∧
    sumIdx (nS c) (fun i => v.x i j) - v.slack_shift_more j ≤ maxTotal c j

/-- Hard-forbidden-day slack (lines 1172-1179): the count of shifts worked on
forbidden dates, never a forcing to zero. -/
def cantCons (c : Case) (v : Valu) : Prop :=
  ∀ j < nP c,
    v.slack_cant_work j = sumOver (forbiddenShifts c j) (fun s => v.x s j)

/-- Hard-ON slack (lines 1184-1218). -/
def hardOnCons (c : Case) (v : Valu) : Prop :=
  ∀ j < nP c,
    (∀ e ∈ hardOnEntries c j,
      (dayToShifts c e.1 = [] → v.hard_on_miss j e.1 = 1) ∧
      (dayToShifts c e.1 ≠ [] → hardOnR c e.1 e.2 = [] → v.hard_on_miss j e.1 = 1) ∧
      (dayToShifts c e.1 ≠ [] → hardOnR c e.1 e.2 ≠ [] →
        (∀ s ∈ hardOnR c e.1 e.2, v.x s j ≤ v.hard_on_sel j e.1) ∧
        sumOver (hardOnR c e.1 e.2) (fun s => v.x s j) ≥ v.hard_on_sel j e.1 ∧
        v.hard_on_sel j e.1 + v.hard_on_miss j e.1 = 1)) ∧
    v.slack_hard_on j =
      ((hardOnEntries c j).map (fun e => v.hard_on_miss j e.1)).sum

/-- The weight constants read at lines 1221-1225 and 1340-1345; absent keys
take the get_num defaults written there. -/
structure HardWeights where
  slack_unfilled : Option Int
  slack_shift_less : Option Int
  slack_shift_more : Option Int
  slack_cant_work : Option Int
  slack_consec : Option Int

structure SoftWeights where
  cluster : Option Int
  unfair_number : Option Int
  cluster_weekend_start : Option Int
  days_wanted_not_met : Option Int
  requested_off : Option Int
  cluster_size : Option Int

structure Weights where
  hard : HardWeights
  soft : SoftWeights

def defaultWeights : Weights :=
  { hard := { slack_unfilled := none, slack_shift_less := none,
              slack_shift_more := none, slack_cant_work := none,
              slack_consec := none }
    soft := { cluster := none, unfair_number := none,
              cluster_weekend_start := none, days_wanted_not_met := none,
              requested_off := none, cluster_size := none } }

def cSlackUnfilled (w : Weights) : Int := w.hard.slack_unfilled.getD 1
def cSlackShiftLess (w : Weights) : Int := w.hard.slack_shift_less.getD 1
def cSlackShiftMore (w : Weights) : Int := w.hard.slack_shift_more.getD 1
def cSlackCantWork (w : Weights) : Int := w.hard.slack_cant_work.getD 1
def cSlackConsec (w : Weights) : Int := w.hard.slack_consec.getD 1
def cClusters (w : Weights) : Int := w.soft.cluster.getD 500
def cUnfair (w : Weights) : Int := w.soft.unfair_number.getD 10
def cWeekendNotClustered (w : Weights) : Int := w.soft.cluster_weekend_start.getD 50000
def cSoftOn (w : Weights) : Int := w.soft.days_wanted_not_met.getD 10
def cSoftOff (w : Weights) : Int := w.soft.requested_off.getD 10
def cClusterSize (w : Weights) : Int := w.soft.cluster_size.getD 10

/-- The phase-1 objective equation U (lines 1227-1234); note the hard-ON
term reuses the cant_work coefficient. -/
def UCons (wt : Weights) (c : Case) (v : Valu) : Prop :=
  v.U = cSlackUnfilled wt * sumIdx (nS c) v.slack_unfilled
      + cSlackShiftLess wt * sumIdx (nP c) v.slack_shift_less
      + cSlackShiftMore wt * sumIdx (nP c) v.slack_shift_more
      + cSlackCantWork wt * sumIdx (nP c) v.slack_cant_work
      + cSlackConsec wt * sumIdx (nP c) v.slack_consec
      + cSlackCantWork wt * sumIdx (nP c) v.slack_hard_on

/-- The full constraint system the phase-1 solve of line 1248 runs under. -/
def phase1Sat (wt : Weights) (c : Case) (v : Valu) : Prop :=
  phase1Domains c v ∧ coverageCons c v ∧ yCons c v ∧ runCons c v ∧
  maxClusterCons c v ∧ consecCons c v ∧ cubeCons c v ∧ cubesumCons c v ∧
  restCons c v ∧ typeCons c v ∧ limitCons c v ∧ cantCons c v ∧
  hardOnCons c v ∧ UCons wt c v

/-! ## The phase-2 additions (testcase_gui.py lines 1255-1442): slack freeze
and the soft objective machinery -/

/-- shifts_by_type sorted by day (lines 1263-1265; the stable Python sort is
embedded as insertion sort). -/
def seqJT (c : Case) (t : String) : List Nat :=
  ((List.range (nS c)).filter (fun s => shiftType c s == t)).insertionSort
    (fun a b => shiftDay c a ≤ shiftDay c b)

def typeAt (c : Case) (tIdx : Nat) : String := (typesList c).getD tIdx ""

/-- nshifts // nproviders (line 1318). -/
def avgShifts (c : Case) : Int := ((nS c / nP c : Nat) : Int)

/-- The Saturday/Sunday day-index pairs of line 1362; _wd raises on an
unparseable calendar date, so pairs are only produced from parseable ones. -/
def weekendPairs (c : Case) : List (Nat × Nat) :=
  (List.range (nD c - 1)).filterMap (fun d =>
    match parseISODate (c.calendar.days.getD d ""),
        parseISODate (c.calendar.days.getD (d + 1) "") with
    | some t1, some t2 =>
        if weekdayYMD t1.1 t1.2.1 t1.2.2 = 5 ∧ weekdayYMD t2.1 t2.2.1 t2.2.2 = 6 then
          some (d, d + 1)
        else none
    | _, _ => none)

/-- The soft-OFF day indices actually processed (lines 1394-1403): the
deduplicated soft-forbidden dates present in the calendar with at least one
shift that day. -/
def softOffDays (c : Case) (i : Nat) : List Nat :=
  (((provG c i).forbidden_days_soft.dedup).filterMap
    (fun dstr => c.calendar.days.indexOf? dstr)).filter
      (fun d => !(dayToShifts c d).isEmpty)

/-- The soft-ON entries actually processed (lines 1414-1424): calendar dates
with shifts whose matching set R is non-empty (R built exactly as for
hard-ON). -/
def softOnEntries (c : Case) (i : Nat) : List (Nat × List String) :=
  (provG c i).preferred_days_soft.filterMap (fun e =>
    match c.calendar.days.indexOf? e.1 with
    | none => none
    | some d =>
        if (dayToShifts c d).isEmpty then none
        else if (hardOnR c d e.2).isEmpty then none
        else some (d, e.2))

/-- A valuation of the soft-objective variables created after the phase-1
solve (lines 1260-1442); works_day is the second y dict of line 1364. -/
structure SoftValu where
  cluster_start : Nat → Nat → Nat → Int
  cluster_count : Nat → Nat → Int
  cc : Nat → Int
  days_per_provider : Nat → Int
  clusters_per_provider : Nat → Int
  cluster_square : Nat → Int
  soft_slack_less : Nat → Int
  soft_slack_more : Nat → Int
  less_sq : Nat → Int
  more_sq : Nat → Int
  deviation : Nat → Int
  works_day : Nat → Nat → Int
  wk_diff : Nat → Nat → Int
  wk_pen : Nat → Nat → Int
  count_horrible : Nat → Int
  soft_off_viol : Nat → Nat → Int
  soft_on_sel : Nat → Nat → Int
  soft_on_miss : Nat → Nat → Int
  soft_off_i : Nat → Int
  soft_on_i : Nat → Int
  Weighted : Int

/-- Declared domains of the soft variables. -/
def softDomains (c : Case) (w : SoftValu) : Prop :=
  (∀ j < nP c, ∀ tIdx < (typesList c).length,
    ∀ k < (seqJT c (typeAt c tIdx)).length,
      0 ≤ w.cluster_start j tIdx k ∧ w.cluster_start j tIdx k ≤ 1) ∧
  (∀ j < nP c, ∀ tIdx < (typesList c).length, 0 ≤ w.cluster_count j tIdx) ∧
  (∀ j < nP c, 0 ≤ w.cc j) ∧
  (∀ i < nP c, 0 ≤ w.days_per_provider i ∧ w.days_per_provider i ≤ 40) ∧
  (∀ j < nP c, 0 ≤ w.clusters_per_provider j) ∧
  (∀ j < nP c, 0 ≤ w.cluster_square j ∧ w.cluster_square j ≤ 100000) ∧
  (∀ i < nP c, 0 ≤ w.soft_slack_less i ∧ w.soft_slack_less i ≤ (nS c : Int)) ∧
  (∀ i < nP c, 0 ≤ w.soft_slack_more i ∧ w.soft_slack_more i ≤ (nS c : Int)) ∧
  (∀ i < nP c, 0 ≤ w.less_sq i ∧ 0 ≤ w.more_sq i ∧ 0 ≤ w.deviation i) ∧
  (∀ i < nP c, ∀ d < nD c, 0 ≤ w.works_day i d ∧ w.works_day i d ≤ 1) ∧
  (∀ i < nP c, ∀ k < (weekendPairs c).length,
    -1 ≤ w.wk_diff i k ∧ w.wk_diff i k ≤ 1 ∧
    0 ≤ w.wk_pen i k ∧ w.wk_pen i k ≤ 1) ∧
  (∀ i < nP c, 0 ≤ w.count_horrible i ∧
    w.count_horrible i ≤ ((weekendPairs c).length : Int)) ∧
  (∀ i < nP c, ∀ d ∈ softOffDays c i,
    0 ≤ w.soft_off_viol i d ∧ w.soft_off_viol i d ≤ 1) ∧
  (∀ i < nP c, ∀ e ∈ softOnEntries c i,
    (0 ≤ w.soft_on_sel i e.1 ∧ w.soft_on_sel i e.1 ≤ 1) ∧
    (0 ≤ w.soft_on_miss i e.1 ∧ w.soft_on_miss i e.1 ≤ 1)) ∧
  (∀ i < nP c, 0 ≤ w.soft_off_i i ∧ 0 ≤ w.soft_on_i i) ∧
  (0 ≤ w.Weighted)

/-- The slack freeze (lines 1255-1258): every phase-1 slack variable is
pinned by equality to its value in the phase-1 solution v1. -/
def freezeCons (c : Case) (v2 v1 : Valu) : Prop :=
  (∀ s < nS c, v2.slack_unfilled s = v1.slack_unfilled s) ∧
  (∀ j < nP c,
    v2.slack_shift_less j = v1.slack_shift_less j ∧
    v2.slack_shift_more j = v1.slack_shift_more j ∧
    v2.slack_cant_work j = v1.slack_cant_work j ∧
    v2.slack_consec j = v1.slack_consec j ∧
    v2.slack_hard_on j = v1.slack_hard_on j)

/-- Cluster-start indicators along each per-type day-sorted sequence
(lines 1272-1295). -/
def clusterStartCons (c : Case) (v : Valu) (w : SoftValu) : Prop :=
  ∀ j < nP c, ∀ tIdx < (typesList c).length,
    seqJT c (typeAt c tIdx) ≠ [] →
      (w.cluster_start j tIdx 0 =
        v.x ((seqJT c (typeAt c tIdx)).headD 0) j ∧
      (∀ k < (seqJT c (typeAt c tIdx)).length, 1 ≤ k →
        w.cluster_start j tIdx k ≥
          v.x ((seqJT c (typeAt c tIdx)).getD k 0) j -
            v.x ((seqJT c (typeAt c tIdx)).getD (k - 1) 0) j ∧
        w.cluster_start j tIdx k ≤ v.x ((seqJT c (typeAt c tIdx)).getD k 0) j ∧
        w.cluster_start j tIdx k ≤
          1 - v.x ((seqJT c (typeAt c tIdx)).getD (k - 1) 0) j) ∧
      w.cluster_count j tIdx =
        sumIdx (seqJT c (typeAt c tIdx)).length (fun k => w.cluster_start j tIdx k))

/-- Provider-level cluster counts (lines 1297-1301): only types whose
sequence is non-empty contribute. -/
def ccCons (c : Case) (w : SoftValu) : Prop :=
  ∀ j < nP c,
    w.cc j = sumIdx (typesList c).length
      (fun tIdx => if seqJT c (typeAt c tIdx) = [] then 0 else w.cluster_count j tIdx)

/-- days_per_provider (lines 1307-1309). -/
def daysPerProviderCons (c : Case) (v : Valu) (w : SoftValu) : Prop :=
  ∀ i < nP c, w.days_per_provider i = sumIdx (nS c) (fun s => v.x s i)

/-- clusters_per_provider and its square (lines 1310-1315). -/
def clusterSquareCons (c : Case) (w : SoftValu) : Prop :=
  ∀ p < nP c,
    w.clusters_per_provider p = w.cc p ∧
    w.cluster_square p = w.clusters_per_provider p * w.clusters_per_provider p

/-- The fairness deviation slacks and their squares (lines 1323-1350). -/
def softDevCons (c : Case) (v : Valu) (w : SoftValu) : Prop :=
  ∀ i < nP c,
    sumIdx (nS c) (fun s => v.x s i) + w.soft_slack_less i ≥ avgShifts c ∧
    sumIdx (nS c) (fun s => v.x s i) - w.soft_slack_more i ≤ avgShifts c ∧
    w.less_sq i = w.soft_slack_less i * w.soft_slack_less i ∧
    w.more_sq i = w.soft_slack_more i * w.soft_slack_more i ∧
    w.deviation i = w.less_sq i + w.more_sq i

/-- The second daily-work dict works_day (lines 1364-1375). -/
def worksDayCons (c : Case) (v : Valu) (w : SoftValu) : Prop :=
  ∀ i < nP c, ∀ d < nD c,
    (dayToShifts c d = [] → w.works_day i d = 0) ∧
    (dayToShifts c d ≠ [] →
      (∀ s ∈ dayToShifts c d, v.x s i ≤ w.works_day i d) ∧
      sumOver (dayToShifts c d) (fun s => v.x s i) ≥ w.works_day i d)

/-- The weekend-adjacency penalty (lines 1377-1386): for each Sat/Sun pair
(d1, d2), diff = works_day d1 - works_day d2 and pen = max(diff, 0). -/
def wkCons (c : Case) (w : SoftValu) : Prop :=
  ∀ i < nP c,
    (∀ k < (weekendPairs c).length,
      w.wk_diff i k =
        w.works_day i ((weekendPairs c).getD k (0, 0)).1 -
          w.works_day i ((weekendPairs c).getD k (0, 0)).2 ∧
      w.wk_pen i k = max (w.wk_diff i k) 0) ∧
    w.count_horrible i = sumIdx (weekendPairs c).length (fun k => w.wk_pen i k)

/-- Soft-OFF violation indicators (lines 1394-1410). -/
def softOffCons (c : Case) (v : Valu) (w : SoftValu) : Prop :=
  ∀ i < nP c,
    (∀ d ∈ softOffDays c i,
      (∀ s ∈ dayToShifts c d, v.x s i ≤ w.soft_off_viol i d) ∧
      sumOver (dayToShifts c d) (fun s => v.x s i) ≥ w.soft_off_viol i d) ∧
    w.soft_off_i i = ((softOffDays c i).map (fun d => w.soft_off_viol i d)).sum

/-- Soft-ON sel/miss indicators (lines 1412-1432). -/
def softOnCons (c : Case) (v : Valu) (w : SoftValu) : Prop :=
  ∀ i < nP c,
    (∀ e ∈ softOnEntries c i,
      (∀ s ∈ hardOnR c e.1 e.2, v.x s i ≤ w.soft_on_sel i e.1) ∧
      sumOver (hardOnR c e.1 e.2) (fun s => v.x s i) ≥ w.soft_on_sel i e.1 ∧
      w.soft_on_sel i e.1 + w.soft_on_miss i e.1 = 1) ∧
    w.soft_on_i i = ((softOnEntries c i).map (fun e => w.soft_on_miss i e.1)).sum

/-- The phase-2 objective equation (lines 1435-1440). -/
def weightedCons (wt : Weights) (c : Case) (v : Valu) (w : SoftValu) : Prop :=
  w.Weighted = cClusters wt * sumIdx (nP c) w.cluster_square
    + cUnfair wt * sumIdx (nP c) w.deviation
    + cClusterSize wt * sumIdx (nP c) v.cluster_cubesum
    + cWeekendNotClustered wt * sumIdx (nP c) w.count_horrible
    + cSoftOn wt * sumIdx (nP c) w.soft_on_i
    + cSoftOff wt * sumIdx (nP c) w.soft_off_i

/-- The full constraint system the phase-2 solve (solve_two_phase line 1643)
runs under: everything phase 1 had, the freeze against the phase-1 solution
v1, and the soft machinery. -/
def phase2Sat (wt : Weights) (c : Case) (v : Valu) (w : SoftValu) (v1 : Valu) : Prop :=
  phase1Sat wt c v ∧ freezeCons c v v1 ∧ softDomains c w ∧
  clusterStartCons c v w ∧ ccCons c w ∧ daysPerProviderCons c v w ∧
  clusterSquareCons c w ∧ softDevCons c v w ∧ worksDayCons c v w ∧
  wkCons c w ∧ softOffCons c v w ∧ softOnCons c v w ∧ weightedCons wt c v w

set_option synthInstance.maxSize 5000

instance (c : Case) (v : Valu) : Decidable (phase1Domains c v) := by
  unfold phase1Domains; infer_instance

instance (c : Case) (v : Valu) : Decidable (coverageCons c v) := by
  unfold coverageCons; infer_instance

instance (c : Case) (v : Valu) : Decidable (yCons c v) := by
  unfold yCons; infer_instance

instance (c : Case) (v : Valu) : Decidable (runCons c v) := by
  unfold runCons; infer_instance

instance (c : Case) (v : Valu) : Decidable (maxClusterCons c v) := by
  unfold maxClusterCons; infer_instance

instance (c : Case) (v : Valu) : Decidable (consecCons c v) := by
  unfold consecCons; infer_instance

instance (c : Case) (v : Valu) : Decidable (cubeCons c v) := by
  unfold cubeCons; infer_instance

instance (c : Case) (v : Valu) : Decidable (cubesumCons c v) := by
  unfold cubesumCons; infer_instance

instance (c : Case) (v : Valu) : Decidable (restCons c v) := by
  unfold restCons; infer_instance

instance (c : Case) (v : Valu) : Decidable (typeCons c v) := by
  unfold typeCons; infer_instance

instance (c : Case) (v : Valu) : Decidable (limitCons c v) := by
  unfold limitCons; infer_instance

instance (c : Case) (v : Valu) : Decidable (cantCons c v) := by
  unfold cantCons; infer_instance

instance (c : Case) (v : Valu) : Decidable (hardOnCons c v) := by
  unfold hardOnCons; infer_instance

instance (wt : Weights) (c : Case) (v : Valu) : Decidable (UCons wt c v) := by
  unfold UCons; infer_instance

instance (wt : Weights) (c : Case) (v : Valu) : Decidable (phase1Sat wt c v) := by
  unfold phase1Sat; infer_instance

instance (c : Case) (w : SoftValu) : Decidable (softDomains c w) := by
  unfold softDomains; infer_instance

instance (c : Case) (v2 v1 : Valu) : Decidable (freezeCons c v2 v1) := by
  unfold freezeCons; infer_instance

instance (c : Case) (v : Valu) (w : SoftValu) : Decidable (clusterStartCons c v w) := by
  unfold clusterStartCons; infer_instance

instance (c : Case) (w : SoftValu) : Decidable (ccCons c w) := by
  unfold ccCons; infer_instance

instance (c : Case) (v : Valu) (w : SoftValu) : Decidable (daysPerProviderCons c v w) := by
  unfold daysPerProviderCons; infer_instance

instance (c : Case) (w : SoftValu) : Decidable (clusterSquareCons c w) := by
  unfold clusterSquareCons; infer_instance

instance (c : Case) (v : Valu) (w : SoftValu) : Decidable (softDevCons c v w) := by
  unfold softDevCons; infer_instance

instance (c : Case) (v : Valu) (w : SoftValu) : Decidable (worksDayCons c v w) := by
  unfold worksDayCons; infer_instance

instance (c : Case) (w : SoftValu) : Decidable (wkCons c w) := by
  unfold wkCons; infer_instance

instance (c : Case) (v : Valu) (w : SoftValu) : Decidable (softOffCons c v w) := by
  unfold softOffCons; infer_instance

instance (c : Case) (v : Valu) (w : SoftValu) : Decidable (softOnCons c v w) := by
  unfold softOnCons; infer_instance

instance (wt : Weights) (c : Case) (v : Valu) (w : SoftValu) :
    Decidable (weightedCons wt c v w) := by
  unfold weightedCons; infer_instance

instance (wt : Weights) (c : Case) (v : Valu) (w : SoftValu) (v1 : Valu) :
    Decidable (phase2Sat wt c v w v1) := by
  unfold phase2Sat; infer_instance

/-! ## Hard-slack values recomputed from a bare assignment

For each hard-constraint family, the canonical violation measure of an
assignment x.  For the families whose slack is tied to x by equalities
(unfilled, cant_work, consec, hard_on) these agree with the model's slack
variables; for the bound slacks (shift_less, shift_more) they are the
minimal values the inequality constraints admit. -/

def recUnfilled (c : Case) (x : Nat → Nat → Int) (s : Nat) : Int :=
  1 - sumIdx (nP c) (fun j => x s j)

def recCant (c : Case) (x : Nat → Nat → Int) (j : Nat) : Int :=
  sumOver (forbiddenShifts c j) (fun s => x s j)

def recY (c : Case) (x : Nat → Nat → Int) (i d : Nat) : Int :=
  if ∀ s ∈ dayToShifts c d, x s i = 0 then 0 else 1

def recRun (c : Case) (x : Nat → Nat → Int) (i : Nat) : Nat → Int
  | 0 => if recY c x i 0 = 1 then 1 else 0
  | d + 1 => if recY c x i (d + 1) = 1 then recRun c x i d + 1 else 0

def recMaxCluster (c : Case) (x : Nat → Nat → Int) (i : Nat) : Int :=
  listMaxI ((List.range (nD c)).map (recRun c x i))

def recConsec (c : Case) (x : Nat → Nat → Int) (i : Nat) : Int :=
  if 0 < maxConsec c i then max (recMaxCluster c x i - maxConsec c i) 0 else 0

def recHardOnEntry (c : Case) (x : Nat → Nat → Int) (j : Nat)
    (e : Nat × List String) : Int :=
  if hardOnR c e.1 e.2 = [] then 1
  else if ∀ s ∈ hardOnR c e.1 e.2, x s j = 0 then 1 else 0

def recHardOn (c : Case) (x : Nat → Nat → Int) (j : Nat) : Int :=
  ((hardOnEntries c j).map (recHardOnEntry c x j)).sum

def recLess (c : Case) (x : Nat → Nat → Int) (j : Nat) : Int :=
  max 0 (minTotal c j - sumIdx (nS c) (fun i => x i j))

def recMore (c : Case) (x : Nat → Nat → Int) (j : Nat) : Int :=
  max 0 (sumIdx (nS c) (fun i => x i j) - maxTotal c j)

/-! ### Determination lemmas: the equality-defined slacks are functions of x -/

theorem sumIdx_succ (n : Nat) (f : Nat → Int) :
    sumIdx (n + 1) f = sumIdx n f + f n := by
  simp [sumIdx, List.range_succ]

theorem sumIdx_nonneg (n : Nat) (f : Nat → Int) (h : ∀ j < n, 0 ≤ f j) :
    0 ≤ sumIdx n f := by
  induction n with
  | zero => simp [sumIdx]
  | succ m ih =>
      rw [sumIdx_succ]
      have h1 := ih (fun j hj => h j (by omega))
      have h2 := h m (by omega)
      omega

theorem sumIdx_eq_zero (n : Nat) (f : Nat → Int)
    (hb : ∀ j < n, 0 ≤ f j) (h : sumIdx n f = 0) :
    ∀ j < n, f j = 0 := by
  induction n with
  | zero => intro j hj; omega
  | succ m ih =>
      rw [sumIdx_succ] at h
      have h1 := sumIdx_nonneg m f (fun j hj => hb j (by omega))
      have h2 := hb m (by omega)
      intro j hj
      rcases Nat.lt_succ_iff_lt_or_eq.mp hj with hj2 | hj2
      · exact ih (fun k hk => hb k (by omega)) (by omega) j hj2
      · subst hj2; omega

theorem sumIdx_eq_one (n : Nat) (f : Nat → Int)
    (hb : ∀ j < n, 0 ≤ f j ∧ f j ≤ 1) (h : sumIdx n f = 1) :
    ∃ j, j < n ∧ f j = 1 ∧ ∀ k < n, f k = 1 → k = j := by
  induction n with
  | zero => simp [sumIdx] at h
  | succ m ih =>
      rw [sumIdx_succ] at h
      have h1 := sumIdx_nonneg m f (fun j hj => (hb j (by omega)).1)
      have h2 := hb m (by omega)
      have hfm : f m = 0 ∨ f m = 1 := by omega
      rcases hfm with hfm | hfm
      · have hsum : sumIdx m f = 1 := by omega
        obtain ⟨j, hj, hone, huniq⟩ := ih (fun k hk => hb k (by omega)) hsum
        refine ⟨j, by omega, hone, ?_⟩
        intro k hk hfk
        rcases Nat.lt_succ_iff_lt_or_eq.mp hk with hk2 | hk2
        · exact huniq k hk2 hfk
        · subst hk2; omega
      · have hsum : sumIdx m f = 0 := by omega
        have hz := sumIdx_eq_zero m f (fun j hj => (hb j (by omega)).1) hsum
        refine ⟨m, by omega, hfm, ?_⟩
        intro k hk hfk
        rcases Nat.lt_succ_iff_lt_or_eq.mp hk with hk2 | hk2
        · have := hz k hk2; omega
        · exact hk2

theorem mem_dayToShifts {c : Case} {d s : Nat} (h : s ∈ dayToShifts c d) :
    s < nS c ∧ shiftDay c s = d := by
  unfold dayToShifts at h
  have h2 := List.of_mem_filter h
  have h1 := List.mem_of_mem_filter h
  exact ⟨List.mem_range.mp h1, by simpa using h2⟩

theorem mem_hardOnR {c : Case} {d s : Nat} {tl : List String}
    (h : s ∈ hardOnR c d tl) : s ∈ dayToShifts c d := by
  unfold hardOnR at h
  by_cases hany : "ANY" ∈ tl
  · rwa [if_pos hany] at h
  · rw [if_neg hany] at h
    exact List.mem_of_mem_filter h

theorem sumOver_zero (l : List Nat) (f : Nat → Int)
    (h : ∀ s ∈ l, f s = 0) : sumOver l f = 0 := by
  unfold sumOver
  apply List.sum_eq_zero
  intro a ha
  obtain ⟨s, hs, rfl⟩ := List.mem_map.mp ha
  exact h s hs

/-- The workday indicator is determined by x: y equals recY. -/
theorem y_det (c : Case) (v : Valu)
    (hdom : phase1Domains c v) (hy : yCons c v) :
    ∀ i < nP c, ∀ d < nD c, v.y i d = recY c v.x i d := by
  obtain ⟨hx, _, hyb, _⟩ := hdom
  intro i hi d hd
  unfold recY
  by_cases hall : ∀ s ∈ dayToShifts c d, v.x s i = 0
  · rw [if_pos hall]
    rcases hSd : dayToShifts c d with _ | ⟨s0, t0⟩
    · exact ((hy i hi d hd).1 hSd)
    · have hne : dayToShifts c d ≠ [] := by rw [hSd]; simp
      obtain ⟨_, hsum⟩ := (hy i hi d hd).2 hne
      have hz : sumOver (dayToShifts c d) (fun s => v.x s i) = 0 :=
        sumOver_zero _ _ hall
      have hyd := (hyb i hi d hd).1
      omega
  · rw [if_neg hall]
    push_neg at hall
    obtain ⟨s, hs, hsx⟩ := hall
    have hne : dayToShifts c d ≠ [] := by
      intro he; rw [he] at hs; cases hs
    obtain ⟨hle, _⟩ := (hy i hi d hd).2 hne
    have hsS := (mem_dayToShifts hs).1
    have hxb := hx s hsS i hi
    have hx1 : v.x s i = 1 := by omega
    have := hle s hs
    have hyd := (hyb i hi d hd).2
    omega

theorem recY_values (c : Case) (x : Nat → Nat → Int) (i d : Nat) :
    recY c x i d = 0 ∨ recY c x i d = 1 := by
  unfold recY
  by_cases h : ∀ s ∈ dayToShifts c d, x s i = 0
  · rw [if_pos h]; left; rfl
  · rw [if_neg h]; right; rfl

theorem recRun_zero (c : Case) (x : Nat → Nat → Int) (i d : Nat)
    (h : recY c x i d = 0) : recRun c x i d = 0 := by
  cases d with
  | zero => unfold recRun; rw [if_neg (by omega)]
  | succ dp => unfold recRun; rw [if_neg (by omega)]

/-- The streak variables are determined by x: run equals recRun. -/
theorem run_det (c : Case) (v : Valu)
    (hdom : phase1Domains c v) (hy : yCons c v) (hr : runCons c v) :
    ∀ i < nP c, ∀ d < nD c, v.run i d = recRun c v.x i d := by
  intro i hi d
  induction d with
  | zero =>
      intro hd
      have hyd := y_det c v hdom hy i hi 0 hd
      rcases recY_values c v.x i 0 with h0 | h1
      · rw [recRun_zero c v.x i 0 h0]
        exact (hr i hi).2.1 (by omega)
      · unfold recRun
        rw [if_pos h1]
        exact (hr i hi).1 (by omega)
  | succ dp ih =>
      intro hd
      have hydS := y_det c v hdom hy i hi (dp + 1) hd
      have hydP := y_det c v hdom hy i hi dp (by omega)
      obtain ⟨hz, hnew, hext⟩ := (hr i hi).2.2 (dp + 1) hd (by omega)
      rcases recY_values c v.x i (dp + 1) with h1 | h1
      · rw [recRun_zero c v.x i (dp + 1) h1]
        exact hz (by omega)
      · unfold recRun
        rw [if_pos h1]
        rcases recY_values c v.x i dp with h0 | h0
        · rw [recRun_zero c v.x i dp h0]
          have : v.run i (dp + 1) = 1 := by
            apply hnew (by omega)
            simp only [Nat.add_sub_cancel]
            omega
          omega
        · have hstep : v.run i (dp + 1) = v.run i dp + 1 := by
            apply hext (by omega)
            simp only [Nat.add_sub_cancel]
            omega
          rw [hstep, ih (by omega)]

/-- The streak maximum is determined by x. -/
theorem maxCluster_det (c : Case) (v : Valu)
    (hdom : phase1Domains c v) (hy : yCons c v) (hr : runCons c v)
    (hm : maxClusterCons c v) :
    ∀ i < nP c, v.max_cluster i = recMaxCluster c v.x i := by
  intro i hi
  rw [hm i hi]
  unfold recMaxCluster
  congr 1
  apply List.map_congr_left
  intro d hd
  exact run_det c v hdom hy hr i hi d (List.mem_range.mp hd)

/-- The consecutive-day slack is determined by x. -/
theorem consec_det (c : Case) (v : Valu)
    (hdom : phase1Domains c v) (hy : yCons c v) (hr : runCons c v)
    (hm : maxClusterCons c v) (hc : consecCons c v) :
    ∀ i < nP c, v.slack_consec i = recConsec c v.x i := by
  intro i hi
  unfold recConsec
  by_cases hcap : 0 < maxConsec c i
  · rw [if_pos hcap]
    obtain ⟨hdiff, hmax, _⟩ := (hc i hi).1 hcap
    rw [hmax, hdiff, maxCluster_det c v hdom hy hr hm i hi]
  · rw [if_neg hcap]
    exact (hc i hi).2 hcap

/-- The hard-ON slack is determined by x. -/
theorem hardOn_det (c : Case) (v : Valu)
    (hdom : phase1Domains c v) (hh : hardOnCons c v) :
    ∀ j < nP c, v.slack_hard_on j = recHardOn c v.x j := by
  obtain ⟨hx, _, _, _, _, _, _, _, _, _, _, _, _, _, _, hho, _⟩ := hdom
  intro j hj
  obtain ⟨hent, hsum⟩ := hh j hj
  rw [hsum]
  unfold recHardOn
  congr 1
  apply List.map_congr_left
  intro e he
  obtain ⟨hmiss1, hmiss2, hsel⟩ := hent e he
  unfold recHardOnEntry
  by_cases hR : hardOnR c e.1 e.2 = []
  · rw [if_pos hR]
    by_cases hSd : dayToShifts c e.1 = []
    · exact hmiss1 hSd
    · exact hmiss2 hSd hR
  · rw [if_neg hR]
    have hSd : dayToShifts c e.1 ≠ [] := by
      intro he2
      apply hR
      unfold hardOnR
      rw [he2]
      by_cases hany : "ANY" ∈ e.2
      · rw [if_pos hany]
      · rw [if_neg hany]; rfl
    obtain ⟨hle, hge, hmiss⟩ := hsel hSd hR
    obtain ⟨hselb, hmissb⟩ := hho j hj e he
    by_cases hall : ∀ s ∈ hardOnR c e.1 e.2, v.x s j = 0
    · rw [if_pos hall]
      have hz : sumOver (hardOnR c e.1 e.2) (fun s => v.x s j) = 0 :=
        sumOver_zero _ _ hall
      omega
    · rw [if_neg hall]
      push_neg at hall
      obtain ⟨s, hs, hsx⟩ := hall
      have hsS := (mem_dayToShifts (mem_hardOnR hs)).1
      have hxb := hx s hsS j hj
      have hx1 : v.x s j = 1 := by omega
      have := hle s hs
      omega

end TG

/-! ## public/local-solver-package/scheduler_sat_core.py: the hard
forbidden-day constraints (lines 159-164) -/

namespace LocalCore

/-- build_model lines 147-152 create x[(p.name, s.id)] only when the
provider type is in the shift's allowed list; lines 159-164 then add
x.get((p.name, s.id), 0) == 0 for every shift on a hard-forbidden date.
When the key is absent the added constraint is the vacuous 0 == 0, so the
pairs genuinely forced to zero are exactly these. -/
def forcedZeroPairs (c : Case) : List (String × String) :=
  c.providers.flatMap (fun p =>
    p.forbidden_days_hard.flatMap (fun day =>
      (c.shifts.filter
        (fun s => s.date == day && s.allowed_provider_types.contains p.type)).map
        (fun s => (p.name, s.id))))

/-- A valuation of this model's assignment variables satisfies the
forbidden-day constraints iff every forced pair is zero. -/
def satForcedZero (c : Case) (xv : String × String → Int) : Prop :=
  ∀ pr ∈ forcedZeroPairs c, xv pr = 0

instance (c : Case) (xv : String × String → Int) : Decidable (satForcedZero c xv) := by
  unfold satForcedZero; infer_instance

end LocalCore

/-! ## Concrete instances and the claim theorems over the constraint system -/

def tgZeroValu : TG.Valu :=
  { x := fun _ _ => 0, slack_unfilled := fun _ => 0, y := fun _ _ => 0
    run := fun _ _ => 0, max_cluster := fun _ => 0, cluster_overrun := fun _ => 0
    slack_consec := fun _ => 0, cluster_end := fun _ _ => 0
    cluster_len := fun _ _ => 0, cluster_len_sq := fun _ _ => 0
    cluster_len_cube := fun _ _ => 0, cluster_cubesum := fun _ => 0
    slack_shift_less := fun _ => 0, slack_shift_more := fun _ => 0
    slack_cant_work := fun _ => 0, hard_on_sel := fun _ _ => 0
    hard_on_miss := fun _ _ => 0, slack_hard_on := fun _ => 0, U := 0 }

/-- A Saturday one-shift instance used across the concrete checks. -/
def c2Shift : Shift :=
  { id := "S1", date := "2024-01-06", type := "MD_day",
    start := "2024-01-06T08:00:00", endT := "2024-01-06T17:00:00",
    allowed_provider_types := ["MD"] }

def c1Case : Case :=
  { calendar := { days := ["2024-01-06"], weekend_days := ["Saturday", "Sunday"] }
    shifts := [c2Shift]
    providers := [{ defaultProvider with name := "Alice", type := "MD" },
                  { defaultProvider with name := "Bob", type := "MD" }] }

def c1Valu : TG.Valu :=
  { tgZeroValu with x := fun s j => if s = 0 ∧ j = 0 then 1 else 0 }

/-- C1: under the coverage constraints of build_model, every shift is either
assigned to exactly one provider with its unfilled slack 0, or unassigned
everywhere with its unfilled slack 1 — exactly one of the two. -/
theorem tg_coverage_exactly_one (c : Case) (v : TG.Valu)
    (hdom : TG.phase1Domains c v) (hcov : TG.coverageCons c v) :
    ∀ s < TG.nS c,
      Xor'
        (v.slack_unfilled s = 0 ∧
          ∃ j, j < TG.nP c ∧ v.x s j = 1 ∧ ∀ k < TG.nP c, v.x s k = 1 → k = j)
        (v.slack_unfilled s = 1 ∧ ∀ j < TG.nP c, v.x s j = 0) := by
  obtain ⟨hx, hu, _⟩ := hdom
  intro s hs
  have hc := hcov s hs
  have hub := hu s hs
  have hxb : ∀ j < TG.nP c, 0 ≤ v.x s j ∧ v.x s j ≤ 1 :=
    fun j hj => hx s hs j hj
  have hsnn : 0 ≤ sumIdx (TG.nP c) (fun j => v.x s j) :=
    TG.sumIdx_nonneg _ _ (fun j hj => (hxb j hj).1)
  have hu01 : v.slack_unfilled s = 0 ∨ v.slack_unfilled s = 1 := by omega
  rcases hu01 with hu0 | hu1
  · have hsum : sumIdx (TG.nP c) (fun j => v.x s j) = 1 := by omega
    obtain ⟨j, hj, hone, huniq⟩ := TG.sumIdx_eq_one _ _ hxb hsum
    exact Or.inl ⟨⟨hu0, j, hj, hone, huniq⟩, fun hb => by omega⟩
  · have hsum : sumIdx (TG.nP c) (fun j => v.x s j) = 0 := by omega
    have hz := TG.sumIdx_eq_zero _ _ (fun j hj => (hxb j hj).1) hsum
    exact Or.inr ⟨⟨hu1, hz⟩, fun ha => by omega⟩

/-- Witness for C1 on a one-shift two-provider instance whose valuation
assigns the shift to the first provider. -/
theorem tg_coverage_exactly_one_witness :
    TG.phase1Domains c1Case c1Valu ∧ TG.coverageCons c1Case c1Valu ∧
    (∀ s < TG.nS c1Case,
      Xor'
        (c1Valu.slack_unfilled s = 0 ∧
          ∃ j, j < TG.nP c1Case ∧ c1Valu.x s j = 1 ∧
            ∀ k < TG.nP c1Case, c1Valu.x s k = 1 → k = j)
        (c1Valu.slack_unfilled s = 1 ∧ ∀ j < TG.nP c1Case, c1Valu.x s j = 0)) :=
  ⟨by decide, by decide,
    tg_coverage_exactly_one c1Case c1Valu (by decide) (by decide)⟩

def c2Provider : Provider :=
  { defaultProvider with
    name := "Alice"
    type := "MD"
    limits := { min_total := some 2, max_total := none } }

def c2Case : Case :=
  { calendar := { days := ["2024-01-06"], weekend_days := ["Saturday", "Sunday"] }
    shifts := [c2Shift]
    providers := [c2Provider] }

/-- A phase-1 feasible (but slack-loose) valuation for c2Case: the shift is
assigned, yet slack_shift_less carries 5 where 1 would do — a legitimate
engine output under a FEASIBLE (time-limited, non-optimal) status. -/
def c2Valu : TG.Valu :=
  { tgZeroValu with
    x := fun s j => if s = 0 ∧ j = 0 then 1 else 0
    y := fun _ _ => 1, run := fun _ _ => 1, max_cluster := fun _ => 1
    cluster_end := fun _ _ => 1, cluster_len := fun _ _ => 1
    cluster_len_sq := fun _ _ => 1, cluster_len_cube := fun _ _ => 1
    cluster_cubesum := fun _ => 1
    slack_shift_less := fun _ => 5
    U := 5 }

def c2Soft : TG.SoftValu :=
  { cluster_start := fun _ _ _ => 1, cluster_count := fun _ _ => 1
    cc := fun _ => 1, days_per_provider := fun _ => 1
    clusters_per_provider := fun _ => 1, cluster_square := fun _ => 1
    soft_slack_less := fun _ => 0, soft_slack_more := fun _ => 0
    less_sq := fun _ => 0, more_sq := fun _ => 0, deviation := fun _ => 0
    works_day := fun _ _ => 1, wk_diff := fun _ _ => 0, wk_pen := fun _ _ => 0
    count_horrible := fun _ => 0, soft_off_viol := fun _ _ => 0
    soft_on_sel := fun _ _ => 0, soft_on_miss := fun _ _ => 0
    soft_off_i := fun _ => 0, soft_on_i := fun _ => 0, Weighted := 510 }

/-- C2 counterexample: a case with min_total 2 and a single shift.  The
valuation c2Valu satisfies the whole phase-1 model with slack_shift_less =
5 (1 + 5 at least 2 holds), and the identical assignment also satisfies the
whole phase-2 model with that value frozen — yet the shift-count shortfall
recomputed from the assignment is max(0, 2 - 1) = 1, not 5.  The bound
slacks are only inequality-linked to x, so the recomputed values need not
equal the frozen ones. -/
theorem tg_freeze_recompute_cex :
    TG.phase1Sat TG.defaultWeights c2Case c2Valu ∧
    TG.phase2Sat TG.defaultWeights c2Case c2Valu c2Soft c2Valu ∧
    TG.recLess c2Case c2Valu.x 0 = 1 ∧
    c2Valu.slack_shift_less 0 = 5 ∧ (1 : Int) ≠ 5 :=
  ⟨by decide, by decide, by decide, rfl, by decide⟩

/-- C2 (amended): all six slack families are pinned by equality in the
phase-2 model; for every phase-2-feasible assignment the recomputed
unfilled, cant_work, consec and hard_on slacks exactly equal the frozen
phase-1 values, while the recomputed shift_less and shift_more shortfalls
are at most the frozen values — phase 2 never worsens hard-constraint
compliance. -/
theorem tg_freeze_recompute_amended (wt : TG.Weights) (c : Case)
    (v1 v2 : TG.Valu) (w : TG.SoftValu)
    (_h1 : TG.phase1Sat wt c v1) (h2 : TG.phase2Sat wt c v2 w v1) :
    (∀ s < TG.nS c, TG.recUnfilled c v2.x s = v1.slack_unfilled s) ∧
    (∀ j < TG.nP c,
      TG.recCant c v2.x j = v1.slack_cant_work j ∧
      TG.recConsec c v2.x j = v1.slack_consec j ∧
      TG.recHardOn c v2.x j = v1.slack_hard_on j ∧
      TG.recLess c v2.x j ≤ v1.slack_shift_less j ∧
      TG.recMore c v2.x j ≤ v1.slack_shift_more j) := by
  obtain ⟨hp1, hfr, _⟩ := h2
  obtain ⟨hdom, hcov, hy, hr, hm, hc, _, _, _, _, hlim, hcant, hho, _⟩ := hp1
  obtain ⟨hfrU, hfrJ⟩ := hfr
  constructor
  · intro s hs
    have hc1 := hcov s hs
    have hc2 := hfrU s hs
    unfold TG.recUnfilled
    omega
  · intro j hj
    have hfrj := hfrJ j hj
    refine ⟨?_, ?_, ?_, ?_, ?_⟩
    · have := hcant j hj
      unfold TG.recCant
      rw [← this]
      exact hfrj.2.2.1
    · rw [← TG.consec_det c v2 hdom hy hr hm hc j hj]
      exact hfrj.2.2.2.1
    · rw [← TG.hardOn_det c v2 hdom hho j hj]
      exact hfrj.2.2.2.2
    · have hle := (hlim j hj).1
      have hb : 0 ≤ v2.slack_shift_less j := by
        obtain ⟨_, _, _, _, _, _, _, _, _, _, _, _, hlb, _⟩ := hdom
        exact (hlb j hj).1
      unfold TG.recLess
      apply max_le
      · rw [← hfrj.1]; exact hb
      · rw [← hfrj.1]; omega
    · have hle := (hlim j hj).2
      have hb : 0 ≤ v2.slack_shift_more j := by
        obtain ⟨_, _, _, _, _, _, _, _, _, _, _, _, _, hmb, _⟩ := hdom
        exact (hmb j hj).1
      unfold TG.recMore
      apply max_le
      · rw [← hfrj.2.1]; exact hb
      · rw [← hfrj.2.1]; omega

/-- Witness for C2 (amended) at the concrete c2Case instance. -/
theorem tg_freeze_recompute_amended_witness :
    TG.phase1Sat TG.defaultWeights c2Case c2Valu ∧
    ((∀ s < TG.nS c2Case,
        TG.recUnfilled c2Case c2Valu.x s = c2Valu.slack_unfilled s) ∧
     (∀ j < TG.nP c2Case,
        TG.recCant c2Case c2Valu.x j = c2Valu.slack_cant_work j ∧
        TG.recConsec c2Case c2Valu.x j = c2Valu.slack_consec j ∧
        TG.recHardOn c2Case c2Valu.x j = c2Valu.slack_hard_on j ∧
        TG.recLess c2Case c2Valu.x j ≤ c2Valu.slack_shift_less j ∧
        TG.recMore c2Case c2Valu.x j ≤ c2Valu.slack_shift_more j)) :=
  ⟨by decide,
    tg_freeze_recompute_amended TG.defaultWeights c2Case c2Valu c2Valu c2Soft
      (by decide) (by decide)⟩

def c6Provider : Provider :=
  { defaultProvider with
    name := "Alice"
    type := "MD"
    forbidden_days_hard := ["2024-01-06"] }

def c6Case : Case :=
  { calendar := { days := ["2024-01-06"], weekend_days := ["Saturday", "Sunday"] }
    shifts := [c2Shift]
    providers := [c6Provider] }

def c6Valu : TG.Valu :=
  { tgZeroValu with
    x := fun s j => if s = 0 ∧ j = 0 then 1 else 0
    y := fun _ _ => 1, run := fun _ _ => 1, max_cluster := fun _ => 1
    cluster_end := fun _ _ => 1, cluster_len := fun _ _ => 1
    cluster_len_sq := fun _ _ => 1, cluster_len_cube := fun _ _ => 1
    cluster_cubesum := fun _ => 1
    slack_cant_work := fun _ => 1
    U := 1 }

/-- C6 counterexample: in the local-solver-package scheduler_sat_core model,
a provider hard-forbidden on the only shift's date has that assignment
forced to 0 by an explicit x == 0 constraint — the model does force the
forbidden assignment, with no cant_work slack to charge instead. -/
theorem localcore_forbidden_forces_cex :
    LocalCore.forcedZeroPairs c6Case = [("Alice", "S1")] := by
  decide

/-- C6 (amended): the testcase_gui model does not force forbidden-day
assignments to zero — the valuation c6Valu works the forbidden Saturday,
satisfies the entire phase-1 model, carries the violation in
slack_cant_work = 1 and is charged for it in U — while the
local-solver-package scheduler_sat_core model forces the same assignment to
0 for every valuation that satisfies its forbidden-day constraints. -/
theorem tg_forbidden_slack_amended (xv : String × String → Int)
    (hx : LocalCore.satForcedZero c6Case xv) :
    TG.phase1Sat TG.defaultWeights c6Case c6Valu ∧
    c6Valu.x 0 0 = 1 ∧ c6Valu.slack_cant_work 0 = 1 ∧ c6Valu.U = 1 ∧
    xv ("Alice", "S1") = 0 :=
  ⟨by decide, rfl, rfl, rfl, hx ("Alice", "S1") (by decide)⟩

/-- Witness for C6 (amended) at the all-zero valuation of the local-core
model. -/
theorem tg_forbidden_slack_amended_witness :
    LocalCore.satForcedZero c6Case (fun _ => 0) ∧
    (TG.phase1Sat TG.defaultWeights c6Case c6Valu ∧
     c6Valu.x 0 0 = 1 ∧ c6Valu.slack_cant_work 0 = 1 ∧ c6Valu.U = 1 ∧
     (fun _ : String × String => (0 : Int)) ("Alice", "S1") = 0) :=
  ⟨by decide, tg_forbidden_slack_amended (fun _ => 0) (by decide)⟩

def c7Shift : Shift :=
  { id := "S1", date := "2024-01-07", type := "MD_day",
    start := "2024-01-07T08:00:00", endT := "2024-01-07T17:00:00",
    allowed_provider_types := ["MD"] }

def c7Case : Case :=
  { calendar := { days := ["2024-01-06", "2024-01-07"],
                  weekend_days := ["Saturday", "Sunday"] }
    shifts := [c7Shift]
    providers := [{ defaultProvider with name := "Alice", type := "MD" }] }

def c7Valu : TG.Valu :=
  { tgZeroValu with
    x := fun s j => if s = 0 ∧ j = 0 then 1 else 0
    y := fun _ d => if d = 1 then 1 else 0
    run := fun _ d => if d = 1 then 1 else 0
    max_cluster := fun _ => 1
    cluster_end := fun _ d => if d = 1 then 1 else 0
    cluster_len := fun _ d => if d = 1 then 1 else 0
    cluster_len_sq := fun _ d => if d = 1 then 1 else 0
    cluster_len_cube := fun _ d => if d = 1 then 1 else 0
    cluster_cubesum := fun _ => 1
    U := 0 }

def c7Soft : TG.SoftValu :=
  { c2Soft with
    works_day := fun _ d => if d = 1 then 1 else 0
    wk_diff := fun _ _ => -1
    wk_pen := fun _ _ => 0
    count_horrible := fun _ => 0 }

/-- C7 counterexample: on the calendar weekend pair (Sat 2024-01-06, Sun
2024-01-07), a phase-2-feasible solution works the Sunday but not the
Saturday and its weekend-adjacency penalty is 0: pen = max(ySat - ySun, 0)
never fires in the Sunday-without-Saturday direction. -/
theorem tg_weekend_pen_cex :
    TG.weekendPairs c7Case = [(0, 1)] ∧
    TG.phase2Sat TG.defaultWeights c7Case c7Valu c7Soft c7Valu ∧
    c7Soft.works_day 0 1 = 1 ∧ c7Soft.works_day 0 0 = 0 ∧
    c7Soft.wk_pen 0 0 = 0 ∧ c7Soft.count_horrible 0 = 0 :=
  ⟨by decide, by decide, rfl, rfl, rfl, rfl⟩

theorem weekendPairs_snd (c : Case) :
    ∀ p ∈ TG.weekendPairs c, p.2 = p.1 + 1 ∧ p.1 + 1 < TG.nD c := by
  intro p hp
  unfold TG.weekendPairs at hp
  obtain ⟨d, hd, hmm⟩ := List.mem_filterMap.mp hp
  have hdlt := List.mem_range.mp hd
  rcases h1 : parseISODate (c.calendar.days.getD d "") with _ | t1 <;>
    rw [h1] at hmm
  · cases hmm
  · rcases h2 : parseISODate (c.calendar.days.getD (d + 1) "") with _ | t2 <;>
      rw [h2] at hmm
    · cases hmm
    · have hmm2 : (if weekdayYMD t1.1 t1.2.1 t1.2.2 = 5 ∧
          weekdayYMD t2.1 t2.2.1 t2.2.2 = 6 then
            some (d, d + 1) else none) = some p := hmm
      by_cases hw : weekdayYMD t1.1 t1.2.1 t1.2.2 = 5 ∧ weekdayYMD t2.1 t2.2.1 t2.2.2 = 6
      · rw [if_pos hw] at hmm2
        injection hmm2 with he
        rw [← he]
        exact ⟨rfl, by omega⟩
      · rw [if_neg hw] at hmm2
        cases hmm2

/-- C7 (amended): for every provider and every Saturday/Sunday pair of the
calendar, the weekend-adjacency penalty variable is 1 exactly when the
provider works the Saturday but not the Sunday; working the Sunday without
the Saturday incurs no penalty. -/
theorem tg_weekend_pen_amended (c : Case) (w : TG.SoftValu)
    (hdom : TG.softDomains c w) (hwk : TG.wkCons c w) :
    ∀ i < TG.nP c, ∀ k < (TG.weekendPairs c).length,
      w.wk_pen i k =
        if w.works_day i ((TG.weekendPairs c).getD k (0, 0)).1 = 1 ∧
           w.works_day i ((TG.weekendPairs c).getD k (0, 0)).2 = 0 then 1 else 0 := by
  intro i hi k hk
  obtain ⟨_, _, _, _, _, _, _, _, _, hwd, _⟩ := hdom
  obtain ⟨hpairs, _⟩ := hwk i hi
  obtain ⟨hdiff, hpen⟩ := hpairs k hk
  have hpmem : (TG.weekendPairs c).getD k (0, 0) ∈ TG.weekendPairs c := by
    rw [List.getD_eq_getElem _ _ hk]
    exact List.getElem_mem hk
  obtain ⟨hsnd, hlt⟩ := weekendPairs_snd c _ hpmem
  have hb1 := hwd i hi ((TG.weekendPairs c).getD k (0, 0)).1 (by omega)
  have hb2 := hwd i hi ((TG.weekendPairs c).getD k (0, 0)).2 (by omega)
  have ha : w.works_day i ((TG.weekendPairs c).getD k (0, 0)).1 = 0 ∨
      w.works_day i ((TG.weekendPairs c).getD k (0, 0)).1 = 1 := by omega
  have hbv : w.works_day i ((TG.weekendPairs c).getD k (0, 0)).2 = 0 ∨
      w.works_day i ((TG.weekendPairs c).getD k (0, 0)).2 = 1 := by omega
  rcases ha with ha | ha <;> rcases hbv with hbv | hbv <;>
    rw [hpen, hdiff, ha, hbv] <;> decide

/-- Witness for C7 (amended) at the concrete Sat/Sun instance. -/
theorem tg_weekend_pen_amended_witness :
    TG.softDomains c7Case c7Soft ∧ TG.wkCons c7Case c7Soft ∧
    (∀ i < TG.nP c7Case, ∀ k < (TG.weekendPairs c7Case).length,
      c7Soft.wk_pen i k =
        if c7Soft.works_day i ((TG.weekendPairs c7Case).getD k (0, 0)).1 = 1 ∧
           c7Soft.works_day i ((TG.weekendPairs c7Case).getD k (0, 0)).2 = 0
        then 1 else 0) :=
  ⟨by decide, by decide,
    tg_weekend_pen_amended c7Case c7Soft (by decide) (by decide)⟩

end SchedulingWebapp
